import Mathlib

set_option maxRecDepth 20000

deriving instance DecidableEq for Except

/-!
# Shallow embedding of `movie_recommender.py`

This file embeds the load–validate–canonicalize–aggregate pipeline of
`src/movie_recommender.py` (Python 3.12) in Lean 4 and proves the frozen
claims about it.

Modelling conventions:
* Python strings are `List Char`.  String operations (`strip`, `split`,
  `lower`, `isdigit`) are modelled for ASCII data; the repository's own
  equality and normalization rules are translated verbatim.
* Python `float` rating values are idealized as exact rationals `ℚ`
  (the numeric literals exercised by the claims are exactly representable).
* Python `dict` (insertion ordered) is an association list
  `List (κ × ν)`: assignment updates the first binding in place or
  appends a fresh binding at the end, exactly like CPython's dict.
* Python `set` of strings is an insertion-ordered duplicate-free list
  (only membership and iteration are used by the source).
* The global mutable state is threaded explicitly; a loader returns the
  state as it stands when the function returns or raises, paired with
  `Option LoadErr` (`some e` models `raise LoadError(...)`).
* A file on disk is modelled as its list of physical lines (newline
  terminators already split off, BOM already removed), mirroring the text
  layer `(l.strip("\n") for l in f)` of the two loaders.
-/

/-- Python whitespace (`str.strip()`, `str.split()`, and `\s` in the regex),
restricted to the ASCII whitespace characters. -/
def pyIsSpace (c : Char) : Bool :=
  c == ' ' || c == '\t' || c == '\n' || c == '\r' || c == '\x0b' || c == '\x0c'

/-- Python `s.strip()` (both ends, whitespace). -/
def pyStrip (l : List Char) : List Char :=
  ((l.dropWhile pyIsSpace).reverse.dropWhile pyIsSpace).reverse

/-- Python `s.rstrip("\n")` / `s.strip("\n")` on a single line (our lines carry
no interior newline, so stripping either end is the same operation). -/
def stripNl (l : List Char) : List Char :=
  ((l.dropWhile (· == '\n')).reverse.dropWhile (· == '\n')).reverse

/-- Python `s.lower()` (ASCII). -/
def pyLower (l : List Char) : List Char := l.map Char.toLower

/-- Python `s.split("|")`: split on every `'|'`, keeping empty parts. -/
def splitPipe : List Char → List (List Char)
  | [] => [[]]
  | c :: cs =>
    if c = '|' then [] :: splitPipe cs
    else
      match splitPipe cs with
      | p :: ps => (c :: p) :: ps
      | [] => [[c]]

/-- Helper for `pyWords`: accumulate the current word (reversed). -/
def pyWordsAux : List Char → List Char → List (List Char)
  | [], acc => if acc = [] then [] else [acc.reverse]
  | c :: cs, acc =>
    if pyIsSpace c then
      if acc = [] then pyWordsAux cs [] else acc.reverse :: pyWordsAux cs []
    else pyWordsAux cs (c :: acc)

/-- Python `s.split()` (no argument): whitespace-separated words, no empties. -/
def pyWords (l : List Char) : List (List Char) := pyWordsAux l []

/-- Python `" ".join(ws)`. -/
def joinSpace : List (List Char) → List Char
  | [] => []
  | [w] => w
  | w :: ws => w ++ ' ' :: joinSpace ws

/-- Python `" ".join(s.split())`: collapse runs of whitespace, trim ends. -/
def collapseWs (l : List Char) : List Char := joinSpace (pyWords l)

/-- Numeric value of a digit list (most significant first). -/
def digitsVal (l : List Char) : Nat :=
  l.foldl (fun acc c => acc * 10 + (c.toNat - '0'.toNat)) 0

/-- Python `int(s)`: optional surrounding whitespace, optional sign, then a
non-empty run of ASCII digits (digit-group underscores are not modelled). -/
def pyInt? (s : List Char) : Option Int :=
  let t := pyStrip s
  match t with
  | '+' :: ds =>
    if ds ≠ [] ∧ ds.all Char.isDigit then some (digitsVal ds) else none
  | '-' :: ds =>
    if ds ≠ [] ∧ ds.all Char.isDigit then some (-(digitsVal ds : Int)) else none
  | ds =>
    if ds ≠ [] ∧ ds.all Char.isDigit then some (digitsVal ds) else none

/-- Result of Python `float(s)`: `none` = `ValueError` (not numeric),
`some none` = a non-finite value (`inf`/`nan`), `some (some q)` = a finite
value, idealized as the exact rational the literal denotes. -/
def pyFloat? (s : List Char) : Option (Option ℚ) :=
  let t := pyStrip s
  let (sign, u) : ℚ × List Char :=
    match t with
    | '+' :: r => (1, r)
    | '-' :: r => (-1, r)
    | r => (1, r)
  if pyLower u = "inf".toList ∨ pyLower u = "infinity".toList ∨ pyLower u = "nan".toList then
    some none
  else
    let ip := u.takeWhile Char.isDigit
    let rest := u.dropWhile Char.isDigit
    let (fp, rest2) : List Char × List Char :=
      match rest with
      | '.' :: r => (r.takeWhile Char.isDigit, r.dropWhile Char.isDigit)
      | r => ([], r)
    if ip = [] ∧ fp = [] then none
    else
      let mant : ℚ := (digitsVal ip : ℚ) + (digitsVal fp : ℚ) / ((10 : ℚ) ^ fp.length)
      match rest2 with
      | [] => some (some (sign * mant))
      | e :: r =>
        if e = 'e' ∨ e = 'E' then
          let (esign, ds) : Int × List Char :=
            match r with
            | '+' :: r2 => (1, r2)
            | '-' :: r2 => (-1, r2)
            | r2 => (1, r2)
          if ds ≠ [] ∧ ds.all Char.isDigit then
            some (some (sign * mant * (10 : ℚ) ^ (esign * (digitsVal ds : Int))))
          else none
        else none

section Alist

variable {κ ν : Type _} [DecidableEq κ]

/-- Python `d.get(k)` / `d[k]` lookup: first binding for `k`. -/
def alGet (k : κ) (l : List (κ × ν)) : Option ν :=
  (l.find? (fun p => p.1 = k)).map (·.2)

/-- Python `d[k] = v`: update the first binding in place, else append. -/
def alSet (k : κ) (v : ν) : List (κ × ν) → List (κ × ν)
  | [] => [(k, v)]
  | p :: ps => if p.1 = k then (k, v) :: ps else p :: alSet k v ps

/-- Python `d.setdefault(k, v)` as a map transformer: append `(k, v)` only
when `k` is absent. -/
def alSetd (k : κ) (v : ν) (l : List (κ × ν)) : List (κ × ν) :=
  match alGet k l with
  | some _ => l
  | none => l ++ [(k, v)]

end Alist

/-- Python `set.add` on an insertion-ordered duplicate-free list. -/
def setAdd {α : Type _} [DecidableEq α] (x : α) (s : List α) : List α :=
  if x ∈ s then s else s ++ [x]

/-!
## Errors

One constructor per `raise LoadError(...)` site of the two loaders, carrying
the 1-based line number that the Python message interpolates (the
missing-file failures concern the filesystem and are outside the embedding).
-/

inductive LoadErr where
  | moviesFileEmpty
  | moviesWrongFieldCount (lineNo : Nat)
  | moviesEmptyField (lineNo : Nat)
  | moviesIdNotInt (lineNo : Nat)
  | moviesNegativeId (lineNo : Nat)
  | moviesBadTitle (lineNo : Nat)
  | moviesConceptIdConflict (lineNo : Nat)
  | moviesIdReused (lineNo : Nat)
  | moviesNameIdConflict (lineNo : Nat)
  | ratingsFileEmpty
  | ratingsWrongFieldCount (lineNo : Nat)
  | ratingsEmptyField (lineNo : Nat)
  | ratingsNotNumeric (lineNo : Nat)
  | ratingsNotFinite (lineNo : Nat)
  | ratingsUserIdNotInt (lineNo : Nat)
  | ratingsNegativeUserId (lineNo : Nat)
deriving DecidableEq, Repr

/-- The line number interpolated into the raised message, when the message
has one (`emptyFile` errors carry none). -/
def LoadErr.lineNo : LoadErr → Option Nat
  | .moviesFileEmpty => none
  | .moviesWrongFieldCount n => some n
  | .moviesEmptyField n => some n
  | .moviesIdNotInt n => some n
  | .moviesNegativeId n => some n
  | .moviesBadTitle n => some n
  | .moviesConceptIdConflict n => some n
  | .moviesIdReused n => some n
  | .moviesNameIdConflict n => some n
  | .ratingsFileEmpty => none
  | .ratingsWrongFieldCount n => some n
  | .ratingsEmptyField n => some n
  | .ratingsNotNumeric n => some n
  | .ratingsNotFinite n => some n
  | .ratingsUserIdNotInt n => some n
  | .ratingsNegativeUserId n => some n

/-!
## Data model (the global session datastore)
-/

/-- One entry of `MOVIES_BY_NAME` / `MOVIES_BY_ID`
(`{"movie_id": ..., "name": ..., "genre_original": ..., "genre_norm": ...}`). -/
structure MovieRec where
  movie_id : Int
  name : List Char
  genre_original : List Char
  genre_norm : List Char
deriving DecidableEq, Repr

/-- The catalog part of the global state
(`MOVIES_BY_ID`, `MOVIES_BY_NAME`, `GENRES`, `GENRE_ORIGINAL_CASE`). -/
structure MoviesState where
  moviesById : List (Int × MovieRec)
  moviesByName : List (List Char × MovieRec)
  genres : List (List Char × List (List Char))
  genreOriginalCase : List (List Char × List Char)
deriving DecidableEq, Repr

/-- The empty catalog (after `_clear_globals`). -/
def emptyMovies : MoviesState := ⟨[], [], [], []⟩

/-- The ratings part of the global state
(`RATINGS_BY_MOVIE`, `RATINGS_BY_USER`, `USER_IDS`). -/
structure RatingsState where
  ratingsByMovie : List (List Char × List (Int × ℚ))
  ratingsByUser : List (Int × List (List Char × ℚ))
  userIds : List Int
deriving DecidableEq, Repr

/-- The empty ratings state (after `_clear_globals`). -/
def emptyRatings : RatingsState := ⟨[], [], []⟩

/-!
## Normalization helpers
-/

/-- `_norm_genre`: `g.strip().lower()`. -/
def norm_genre (g : List Char) : List Char := pyLower (pyStrip g)

/-- `_case_insensitive_equal_same_length`. -/
def case_insensitive_equal_same_length (a b : List Char) : Bool :=
  a.length == b.length && pyLower a == pyLower b

/-- `_get_canonical_movie_name`: first existing key of `MOVIES_BY_NAME`
(in insertion order) display-equivalent to `new_name`, else `new_name`. -/
def get_canonical_movie_name (moviesByName : List (List Char × MovieRec))
    (newName : List Char) : List Char :=
  match moviesByName.find? (fun p => case_insensitive_equal_same_length p.1 newName) with
  | some p => p.1
  | none => newName

/-- The regex `^(?P<title>.+?)\s*\(\s*(?P<year>\d{4})\s*\)\s*$` applied to
`movie_name`, followed by the source's whitespace collapse of the title
(`" ".join(m.group("title").split())`).  Implemented by the equivalent
right-to-left scan: strip trailing whitespace, demand `')'`, strip
whitespace, demand exactly four digits, strip whitespace, demand `'('`;
the non-greedy title is the remaining prefix without its trailing
whitespace (or, when that is empty, its first character), and must be
non-empty and free of `'\n'` (which `.` does not match). -/
def extractTitleYear (s : List Char) : Option (List Char × Nat) :=
  match s.reverse.dropWhile pyIsSpace with
  | [] => none
  | c :: r1 =>
    if c = ')' then
      match r1.dropWhile pyIsSpace with
      | y0 :: y1 :: y2 :: y3 :: r3 =>
        if y0.isDigit && y1.isDigit && y2.isDigit && y3.isDigit then
          let year := 1000 * (y3.toNat - '0'.toNat) + 100 * (y2.toNat - '0'.toNat)
            + 10 * (y1.toNat - '0'.toNat) + (y0.toNat - '0'.toNat)
          match r3.dropWhile pyIsSpace with
          | [] => none
          | c2 :: r5 =>
            if c2 = '(' then
              let tstrip := (r5.dropWhile pyIsSpace).reverse
              if tstrip = [] then
                match r5.reverse with
                | [] => none
                | c0 :: _ => if c0 = '\n' then none else some (collapseWs [c0], year)
              else if '\n' ∈ tstrip then none
              else some (collapseWs tstrip, year)
            else none
        else none
      | _ => none
    else none

/-- `_extract_title_year` (raises `LoadError` when the regex fails). -/
def extract_title_year (movieName : List Char) (lineNo : Nat) :
    Except LoadErr (List Char × Nat) :=
  match extractTitleYear movieName with
  | none => .error (.moviesBadTitle lineNo)
  | some ty => .ok ty

/-- The conceptual key `f"{title.lower()} ({year})"` as a pure function of the
display name (`none` when the title/year shape does not match). -/
def conceptKeyOf (movieName : List Char) : Option (List Char) :=
  (extractTitleYear movieName).map
    (fun ty => pyLower ty.1 ++ [' ', '('] ++ (Nat.repr ty.2).toList ++ [')'])

/-- `_concept_key`. -/
def concept_key (movieName : List Char) (lineNo : Nat) : Except LoadErr (List Char) :=
  match conceptKeyOf movieName with
  | none => .error (.moviesBadTitle lineNo)
  | some ck => .ok ck

/-!
## Record parsers
-/

/-- `_parse_movies_line`: `genre|movie_id|movie_name`. -/
def parse_movies_line (line : List Char) (lineNo : Nat) :
    Except LoadErr (List Char × Int × List Char) :=
  match splitPipe (stripNl line) with
  | [genreRaw, movieIdS, movieNameRaw] =>
    let genre := pyStrip genreRaw
    let movieName := pyStrip movieNameRaw
    if genre = [] ∨ pyStrip movieIdS = [] ∨ movieName = [] then
      .error (.moviesEmptyField lineNo)
    else
      match pyInt? movieIdS with
      | none => .error (.moviesIdNotInt lineNo)
      | some movieId => .ok (genre, movieId, movieName)
  | _ => .error (.moviesWrongFieldCount lineNo)

/-- `_parse_ratings_line`: `movie_name|rating|user_id`. -/
def parse_ratings_line (line : List Char) (lineNo : Nat) :
    Except LoadErr (List Char × ℚ × Int) :=
  match splitPipe (stripNl line) with
  | [mnRaw, rsRaw, usRaw] =>
    let movieName := pyStrip mnRaw
    let ratingS := pyStrip rsRaw
    let userIdS := pyStrip usRaw
    if movieName = [] ∨ ratingS = [] ∨ userIdS = [] then
      .error (.ratingsEmptyField lineNo)
    else
      match pyFloat? ratingS with
      | none => .error (.ratingsNotNumeric lineNo)
      | some none => .error (.ratingsNotFinite lineNo)
      | some (some rating) =>
        match pyInt? userIdS with
        | none => .error (.ratingsUserIdNotInt lineNo)
        | some userId => .ok (movieName, rating, userId)
  | _ => .error (.ratingsWrongFieldCount lineNo)

/-!
## Movie loader (`load_movies_file`)
-/

/-- The final statements of the movie-row loop body: register the row's
genre under its normalized key (`GENRES.setdefault(...).add(...)`) and record
the first-seen original casing (`GENRE_ORIGINAL_CASE.setdefault(...)`). -/
def registerGenre (genreOriginal canonicalName : List Char) (st : MoviesState) :
    MoviesState :=
  let ng := norm_genre genreOriginal
  { st with
    genres := alSet ng (setAdd canonicalName ((alGet ng st.genres).getD [])) st.genres,
    genreOriginalCase := alSetd ng genreOriginal st.genreOriginalCase }

/-- The canonicalize-and-insert half of the movie-row loop body (everything
from `canonical_name = _get_canonical_movie_name(...)` on). -/
def movieRowFinish (i : Nat) (genreOriginal : List Char) (movieId : Int)
    (movieNameRaw : List Char) (ctid : List (List Char × Int)) (st : MoviesState) :
    Except LoadErr (List (List Char × Int) × MoviesState) :=
  let canonicalName := get_canonical_movie_name st.moviesByName movieNameRaw
  match alGet canonicalName st.moviesByName with
  | none =>
    let m : MovieRec := ⟨movieId, canonicalName, genreOriginal, norm_genre genreOriginal⟩
    .ok (ctid, registerGenre genreOriginal canonicalName
      { st with
        moviesByName := alSet canonicalName m st.moviesByName,
        moviesById := alSet movieId m st.moviesById })
  | some existing =>
    if existing.movie_id ≠ movieId then .error (.moviesNameIdConflict i)
    else .ok (ctid, registerGenre genreOriginal canonicalName st)

/-- The movie-row loop body from the `movie_id in MOVIES_BY_ID` reuse check
on (the `concept_to_id` map has already been updated by `setdefault`). -/
def movieRowCheckId (i : Nat) (genreOriginal : List Char) (movieId : Int)
    (movieNameRaw ck : List Char) (ctid : List (List Char × Int)) (st : MoviesState) :
    Except LoadErr (List (List Char × Int) × MoviesState) :=
  match alGet movieId st.moviesById with
  | some m =>
    match concept_key m.name i with
    | .error e => .error e
    | .ok existingCk =>
      if existingCk ≠ ck then .error (.moviesIdReused i)
      else movieRowFinish i genreOriginal movieId movieNameRaw ctid st
  | none => movieRowFinish i genreOriginal movieId movieNameRaw ctid st

/-- The body of the `for i, raw in enumerate(lines, start=1)` loop of
`load_movies_file` for one row: validates the row against the current
`concept_to_id` map and catalog state, and either raises or returns the
updated map and state. -/
def movieRowStep (i : Nat) (raw : List Char) (ctid : List (List Char × Int))
    (st : MoviesState) :
    Except LoadErr (List (List Char × Int) × MoviesState) :=
  match parse_movies_line raw i with
  | .error e => .error e
  | .ok (genreOriginal, movieId, movieNameRaw) =>
    if movieId < 0 then .error (.moviesNegativeId i)
    else
      match concept_key movieNameRaw i with
      | .error e => .error e
      | .ok ck =>
        match alGet ck ctid with
        | some prevId =>
          if prevId ≠ movieId then .error (.moviesConceptIdConflict i)
          else movieRowCheckId i genreOriginal movieId movieNameRaw ck
            (alSetd ck movieId ctid) st
        | none =>
          movieRowCheckId i genreOriginal movieId movieNameRaw ck
            (alSetd ck movieId ctid) st

/-- The whole `for` loop of `load_movies_file`: on a raise, returns the state
as it stands together with the error. -/
def processMoviesLines :
    Nat → List (List Char) → List (List Char × Int) → MoviesState →
      List (List Char × Int) × MoviesState × Option LoadErr
  | _, [], ctid, st => (ctid, st, none)
  | i, raw :: rest, ctid, st =>
    match movieRowStep i raw ctid st with
    | .error e => (ctid, st, some e)
    | .ok (ctid', st') => processMoviesLines (i + 1) rest ctid' st'

/-- Truthiness of `ln.strip()`: the line has a non-whitespace character. -/
def isNonBlank (l : List Char) : Bool := pyStrip l ≠ []

/-- `lines = [ln for ln in (l.strip("\n") for l in f) if ln.strip()]`. -/
def fileLines (file : List (List Char)) : List (List Char) :=
  (file.map stripNl).filter isNonBlank

/-- `load_movies_file` on the file's physical lines: populates the catalog
maps, or raises; the returned state is the global state as the function
leaves it (also on a raise). -/
def load_movies_file (file : List (List Char)) (st : MoviesState) :
    MoviesState × Option LoadErr :=
  let lines := fileLines file
  if lines.isEmpty then (st, some .moviesFileEmpty)
  else
    let r := processMoviesLines 1 lines [] st
    (r.2.1, r.2.2)

/-!
## Ratings loader (`load_ratings_file`)
-/

/-- The `for existing in MOVIES_BY_NAME.keys()` resolution scan with `break`:
first canonical key display-equivalent to the row's movie name. -/
def findCanonical (moviesByName : List (List Char × MovieRec))
    (movieNameRaw : List Char) : Option (List Char) :=
  (moviesByName.find? (fun p => case_insensitive_equal_same_length p.1 movieNameRaw)).map (·.1)

/-- The two index insertions
`RATINGS_BY_MOVIE.setdefault(c, []).append((u, r))` and
`RATINGS_BY_USER.setdefault(u, {})[c] = r`. -/
def addRating (rst : RatingsState) (userId : Int) (canonicalName : List Char)
    (rating : ℚ) : RatingsState :=
  { rst with
    ratingsByMovie :=
      alSet canonicalName ((alGet canonicalName rst.ratingsByMovie).getD [] ++ [(userId, rating)])
        rst.ratingsByMovie,
    ratingsByUser :=
      alSet userId (alSet canonicalName rating ((alGet userId rst.ratingsByUser).getD []))
        rst.ratingsByUser }

/-- The body of the ratings loop for one row: raise, skip (state unchanged),
or record the rating and mark the `(user_id, canonical_name)` pair seen. -/
def ratingRowStep (i : Nat) (raw : List Char)
    (moviesByName : List (List Char × MovieRec))
    (seen : List (Int × List Char)) (rst : RatingsState) :
    Except LoadErr (List (Int × List Char) × RatingsState) :=
  match parse_ratings_line raw i with
  | .error e => .error e
  | .ok (movieNameRaw, rating, userId) =>
    if userId < 0 then .error (.ratingsNegativeUserId i)
    else if ¬ (0 ≤ rating ∧ rating ≤ 5) then .ok (seen, rst)
    else
      match findCanonical moviesByName movieNameRaw with
      | none => .ok (seen, rst)
      | some canonicalName =>
        if (userId, canonicalName) ∈ seen then .ok (seen, rst)
        else .ok ((userId, canonicalName) :: seen, addRating rst userId canonicalName rating)

/-- The whole ratings `for` loop. -/
def processRatingsLines (moviesByName : List (List Char × MovieRec)) :
    Nat → List (List Char) → List (Int × List Char) → RatingsState →
      List (Int × List Char) × RatingsState × Option LoadErr
  | _, [], seen, rst => (seen, rst, none)
  | i, raw :: rest, seen, rst =>
    match ratingRowStep i raw moviesByName seen rst with
    | .error e => (seen, rst, some e)
    | .ok (seen', rst') => processRatingsLines moviesByName (i + 1) rest seen' rst'

/-- Stable insertion of `x` into a run already sorted by `le` (`x` goes in
front of the first element it is not `le`-preceded by). -/
def sInsert {α : Type _} (le : α → α → Bool) (x : α) : List α → List α
  | [] => [x]
  | y :: ys => if le x y then x :: y :: ys else y :: sInsert le x ys

/-- Stable sort by the boolean preorder `le`; for a total preorder this
agrees with Python's stable `sorted`. -/
def sortBy {α : Type _} (le : α → α → Bool) : List α → List α
  | [] => []
  | x :: xs => sInsert le x (sortBy le xs)

/-- `load_ratings_file`: needs the current catalog's `MOVIES_BY_NAME`;
populates the rating indexes and, on success only, rewrites `USER_IDS`
with the sorted distinct user ids. -/
def load_ratings_file (moviesByName : List (List Char × MovieRec))
    (file : List (List Char)) (rst : RatingsState) :
    RatingsState × Option LoadErr :=
  let lines := fileLines file
  if lines.isEmpty then (rst, some .ratingsFileEmpty)
  else
    match processRatingsLines moviesByName 1 lines [] rst with
    | (_, rst', some e) => (rst', some e)
    | (_, rst', none) =>
      ({ rst' with userIds := sortBy (fun a b => a ≤ b) (rst'.ratingsByUser.map (·.1)) }, none)

/-!
## Statistics engine
-/

/-- One entry of `MOVIE_STATS` (`{"avg": ..., "count": ...}`). -/
structure MovieStat where
  avg : ℚ
  count : Nat
deriving DecidableEq, Repr

/-- One entry of `GENRE_STATS`
(`{"avg_of_movie_avgs": ..., "total_ratings": ...}`). -/
structure GenreStat where
  avg_of_movie_avgs : ℚ
  total_ratings : Nat
deriving DecidableEq, Repr

/-- `compute_movie_stats`: mean and count of the retained ratings of every
movie with a non-empty rating list. -/
def compute_movie_stats (ratingsByMovie : List (List Char × List (Int × ℚ))) :
    List (List Char × MovieStat) :=
  ratingsByMovie.filterMap (fun p =>
    if p.2 = [] then none
    else some (p.1, ⟨(p.2.map (·.2)).sum / (p.2.length : ℚ), p.2.length⟩))

/-- `compute_genre_stats`: per genre, the unweighted mean of the averages of
its movies that have a `MOVIE_STATS` entry with positive count, and the sum
of those movies' counts; genres with no such movie get no entry. -/
def compute_genre_stats (genres : List (List Char × List (List Char)))
    (movieStats : List (List Char × MovieStat)) :
    List (List Char × GenreStat) :=
  genres.filterMap (fun g =>
    let stats := g.2.filterMap (fun m =>
      match alGet m movieStats with
      | some st => if st.count > 0 then some st else none
      | none => none)
    if stats = [] then none
    else some (g.1, ⟨(stats.map (·.avg)).sum / (stats.length : ℚ),
      (stats.map (·.count)).sum⟩))

/-- One iteration of the per-user `genre -> (sum, count)` aggregation loop of
`compute_user_top_genre_cache` / `_compute_user_top_genre_for`. -/
def aggStep (moviesByName : List (List Char × MovieRec))
    (agg : List (List Char × (ℚ × Nat))) (p : List Char × ℚ) :
    List (List Char × (ℚ × Nat)) :=
  match alGet p.1 moviesByName with
  | none => agg
  | some mv =>
    let sc := (alGet mv.genre_norm agg).getD (0, 0)
    alSet mv.genre_norm (sc.1 + p.2, sc.2 + 1) agg

/-- The per-user `genre -> (sum, count)` aggregation loop. -/
def aggGenres (moviesByName : List (List Char × MovieRec))
    (ratedMap : List (List Char × ℚ)) : List (List Char × (ℚ × Nat)) :=
  ratedMap.foldl (aggStep moviesByName) []

/-- Lexicographic `<=` on Python string code points. -/
def charListLT : List Char → List Char → Bool
  | [], [] => false
  | [], _ :: _ => true
  | _ :: _, [] => false
  | a :: as, b :: bs => if a < b then true else if b < a then false else charListLT as bs

/-- The sort key of `compute_user_top_genre_cache`:
`(-avg, -count, GENRE_ORIGINAL_CASE.get(gn, gn).lower())`, as a boolean
total preorder on `(gn, avg, count)` triples. -/
def userGenreLE (genreOriginalCase : List (List Char × List Char))
    (a b : List Char × ℚ × Nat) : Bool :=
  let da := pyLower ((alGet a.1 genreOriginalCase).getD a.1)
  let db := pyLower ((alGet b.1 genreOriginalCase).getD b.1)
  b.2.1 < a.2.1 ∨ (a.2.1 = b.2.1 ∧ (b.2.2 < a.2.2 ∨ (a.2.2 = b.2.2 ∧
    (charListLT da db ∨ da = db))))

/-- `compute_user_top_genre_cache`: for every user with a non-empty genre
aggregation, the head of the candidate list sorted by
(user's genre average desc, user's genre count desc, display name A-Z). -/
def compute_user_top_genre_cache (moviesByName : List (List Char × MovieRec))
    (genreOriginalCase : List (List Char × List Char))
    (ratingsByUser : List (Int × List (List Char × ℚ))) :
    List (Int × (List Char × ℚ × Nat)) :=
  ratingsByUser.filterMap (fun u =>
    let agg := aggGenres moviesByName u.2
    if agg = [] then none
    else
      let cands := agg.filterMap (fun g =>
        if g.2.2 ≥ 1 then some (g.1, g.2.1 / (g.2.2 : ℚ), g.2.2) else none)
      match sortBy (userGenreLE genreOriginalCase) cands with
      | [] => none
      | top :: _ => some (u.1, top))

/-!
## Sort keys and recommendation
-/

/-- `_movie_sort_key`: `(-avg, -count, movie_name.lower(), movie_id)` with
the defaults `{"avg": 0.0, "count": 0}` and `10**12`. -/
def movie_sort_key (movieStats : List (List Char × MovieStat))
    (moviesByName : List (List Char × MovieRec)) (movieName : List Char) :
    ℚ × Int × List Char × Int :=
  let st := (alGet movieName movieStats).getD ⟨0, 0⟩
  let movieId := ((alGet movieName moviesByName).map (·.movie_id)).getD (10 ^ 12)
  (-st.avg, -(st.count : Int), pyLower movieName, movieId)

/-- Lexicographic `<=` on `_movie_sort_key` tuples (Python tuple order). -/
def key4LE (a b : ℚ × Int × List Char × Int) : Bool :=
  a.1 < b.1 ∨ (a.1 = b.1 ∧ (a.2.1 < b.2.1 ∨ (a.2.1 = b.2.1 ∧
    (charListLT a.2.2.1 b.2.2.1 ∨ (a.2.2.1 = b.2.2.1 ∧ a.2.2.2 ≤ b.2.2.2)))))

/-- The movie-ranking preorder `sorted(..., key=_movie_sort_key)` sorts by. -/
def movieRankLE (movieStats : List (List Char × MovieStat))
    (moviesByName : List (List Char × MovieRec)) (a b : List Char) : Bool :=
  key4LE (movie_sort_key movieStats moviesByName a) (movie_sort_key movieStats moviesByName b)

/-- The recommendation core of `feature_recommend_movies` for a user whose
preferred genre is `normG`: the genre's movies in ranking order, minus the
movies the user has rated, truncated to three. -/
def recommend_for (movieStats : List (List Char × MovieStat))
    (moviesByName : List (List Char × MovieRec))
    (genres : List (List Char × List (List Char)))
    (ratingsByUser : List (Int × List (List Char × ℚ)))
    (uid : Int) (normG : List Char) : List (List Char) :=
  let rated := ((alGet uid ratingsByUser).getD []).map (·.1)
  let candidates := sortBy (movieRankLE movieStats moviesByName) ((alGet normG genres).getD [])
  let unseen := candidates.filter (fun m => ¬ m ∈ rated)
  unseen.take 3

/-- The recommendation query of `feature_recommend_movies`, scoped to a user
with a `USER_TOP_GENRE` entry (the cache the feature reads after
`compute_user_top_genre_cache`). -/
def feature_recommend_movies (movieStats : List (List Char × MovieStat))
    (moviesByName : List (List Char × MovieRec))
    (genres : List (List Char × List (List Char)))
    (ratingsByUser : List (Int × List (List Char × ℚ)))
    (userTopGenre : List (Int × (List Char × ℚ × Nat))) (uid : Int) :
    Option (List (List Char)) :=
  (alGet uid userTopGenre).map (fun top =>
    recommend_for movieStats moviesByName genres ratingsByUser uid top.1)

/-!
## Toolkit lemmas about the Python-container models
-/

section AlistLemmas

variable {κ ν : Type _} [DecidableEq κ]

theorem alGet_nil (k : κ) : alGet k ([] : List (κ × ν)) = none := rfl

theorem alGet_cons (k : κ) (p : κ × ν) (l : List (κ × ν)) :
    alGet k (p :: l) = if p.1 = k then some p.2 else alGet k l := by
  by_cases h : p.1 = k <;> simp [alGet, List.find?_cons, h]

theorem alGet_alSet (k k' : κ) (v : ν) (l : List (κ × ν)) :
    alGet k (alSet k' v l) = if k = k' then some v else alGet k l := by
  induction l with
  | nil =>
    show alGet k [(k', v)] = _
    rw [alGet_cons]
    by_cases h : k = k'
    · rw [if_pos h.symm, if_pos h]
    · rw [if_neg (fun he => h he.symm), if_neg h, alGet_nil]
  | cons p ps ih =>
    show alGet k (if p.1 = k' then (k', v) :: ps else p :: alSet k' v ps) = _
    by_cases hp : p.1 = k'
    · rw [if_pos hp, alGet_cons]
      by_cases hk : k = k'
      · rw [if_pos hk.symm, if_pos hk]
      · rw [if_neg (fun he => hk he.symm), if_neg hk, alGet_cons,
          if_neg (fun he : p.1 = k => hk (he.symm.trans hp))]
    · rw [if_neg hp, alGet_cons, ih, alGet_cons]
      by_cases hpk : p.1 = k
      · rw [if_pos hpk, if_neg (fun hk : k = k' => hp (hpk.trans hk)), if_pos hpk]
      · rw [if_neg hpk]
        by_cases hk : k = k'
        · rw [if_pos hk, if_pos hk]
        · rw [if_neg hk, if_neg hk, if_neg hpk]

theorem alGet_append (k : κ) (l₁ l₂ : List (κ × ν)) :
    alGet k (l₁ ++ l₂) =
      match alGet k l₁ with
      | some v => some v
      | none => alGet k l₂ := by
  induction l₁ with
  | nil => simp [alGet_nil]
  | cons p ps ih =>
    by_cases hp : p.1 = k <;> simp [alGet_cons, hp, ih]

theorem alGet_alSetd (k k' : κ) (v : ν) (l : List (κ × ν)) :
    alGet k (alSetd k' v l) =
      match alGet k l with
      | some w => some w
      | none => if k = k' then some v else none := by
  unfold alSetd
  cases hk' : alGet k' l with
  | some w =>
    cases h : alGet k l with
    | some u => simp
    | none =>
      by_cases he : k = k'
      · subst he
        simp [h] at hk'
      · simp [he]
  | none =>
    rw [alGet_append]
    cases h : alGet k l with
    | some u => simp
    | none =>
      by_cases he : k = k'
      · rw [alGet_cons, if_pos he.symm, if_pos he]
      · rw [alGet_cons, if_neg (fun h2 : k' = k => he h2.symm), if_neg he, alGet_nil]

theorem alGet_mem {k : κ} {v : ν} {l : List (κ × ν)} (h : alGet k l = some v) :
    (k, v) ∈ l := by
  induction l with
  | nil => simp [alGet_nil] at h
  | cons p ps ih =>
    rw [alGet_cons] at h
    by_cases hp : p.1 = k
    · simp only [hp, if_pos] at h
      obtain ⟨a, b⟩ := p
      obtain ⟨rfl, rfl⟩ : a = k ∧ b = v := ⟨hp, by injection h⟩
      exact List.mem_cons_self _ _
    · rw [if_neg hp] at h
      exact List.mem_cons_of_mem _ (ih h)

theorem alGet_isSome_of_mem {k : κ} {v : ν} {l : List (κ × ν)} (h : (k, v) ∈ l) :
    (alGet k l).isSome := by
  induction l with
  | nil => simp at h
  | cons p ps ih =>
    rw [alGet_cons]
    rcases List.mem_cons.1 h with h1 | h2
    · simp [← h1]
    · by_cases hp : p.1 = k <;> simp [hp, ih h2]

theorem alGet_none_of_not_mem_keys {k : κ} {l : List (κ × ν)}
    (h : k ∉ l.map Prod.fst) : alGet k l = none := by
  induction l with
  | nil => rfl
  | cons p ps ih =>
    simp only [List.map_cons, List.mem_cons] at h
    push_neg at h
    rw [alGet_cons, if_neg (fun he => h.1 he.symm), ih h.2]

end AlistLemmas

section SortLemmas

variable {α : Type _}

theorem mem_sInsert (le : α → α → Bool) (x y : α) (l : List α) :
    y ∈ sInsert le x l ↔ y = x ∨ y ∈ l := by
  induction l with
  | nil => simp [sInsert]
  | cons z zs ih =>
    by_cases h : le x z
    · simp [sInsert, h]
    · simp only [sInsert, if_neg h, List.mem_cons, ih]
      tauto

theorem mem_sortBy (le : α → α → Bool) (x : α) (l : List α) :
    x ∈ sortBy le l ↔ x ∈ l := by
  induction l with
  | nil => simp [sortBy]
  | cons y ys ih => simp [sortBy, mem_sInsert, ih]

theorem length_sInsert (le : α → α → Bool) (x : α) (l : List α) :
    (sInsert le x l).length = l.length + 1 := by
  induction l with
  | nil => rfl
  | cons z zs ih =>
    by_cases h : le x z <;> simp [sInsert, h, ih]

theorem length_sortBy (le : α → α → Bool) (l : List α) :
    (sortBy le l).length = l.length := by
  induction l with
  | nil => rfl
  | cons y ys ih => simp [sortBy, length_sInsert, ih]

end SortLemmas

/-!
## C5: genre statistics are the unweighted mean of per-movie averages
-/

theorem compute_movie_stats_count_pos (rbm : List (List Char × List (Int × ℚ)))
    (m : List Char) (st : MovieStat) (h : alGet m (compute_movie_stats rbm) = some st) :
    0 < st.count := by
  have hm := alGet_mem h
  unfold compute_movie_stats at hm
  rcases List.mem_filterMap.1 hm with ⟨p, _, hp⟩
  by_cases hnil : p.2 = []
  · simp [hnil] at hp
  · simp only [hnil, if_neg, ite_false] at hp
    have : st.count = p.2.length := by
      injection hp with h1
      exact (congrArg MovieStat.count (congrArg Prod.snd h1)).symm ▸ rfl
    rw [this]
    exact List.length_pos.2 hnil

theorem keys_filterMap_keyed_subset {κ ν μ : Type _} [DecidableEq κ]
    (F : ν → Option μ) (l : List (κ × ν)) (k : κ)
    (h : k ∈ (l.filterMap (fun p => (F p.2).map (fun mm => (p.1, mm)))).map Prod.fst) :
    k ∈ l.map Prod.fst := by
  rcases List.mem_map.1 h with ⟨q, hq, hqk⟩
  rcases List.mem_filterMap.1 hq with ⟨p, hp, hpq⟩
  rcases Option.map_eq_some'.1 hpq with ⟨mm, _, hq2⟩
  exact List.mem_map.2 ⟨p, hp, by rw [← hqk, ← hq2]⟩

theorem alGet_filterMap_keyed {κ ν μ : Type _} [DecidableEq κ]
    (F : ν → Option μ) (l : List (κ × ν)) (k : κ) (v : ν)
    (hnd : (l.map Prod.fst).Nodup) (h : alGet k l = some v) :
    alGet k (l.filterMap (fun p => (F p.2).map (fun mm => (p.1, mm)))) = F v := by
  induction l with
  | nil => simp [alGet_nil] at h
  | cons p ps ih =>
    obtain ⟨a, b⟩ := p
    simp only [List.map_cons, List.nodup_cons] at hnd
    rw [alGet_cons] at h
    by_cases hak : a = k
    · rw [if_pos hak] at h
      injection h with hbv
      subst hbv
      subst hak
      rw [List.filterMap_cons]
      cases hF : F b with
      | some mm =>
        simp only [Option.map_some']
        rw [alGet_cons, if_pos rfl]
      | none =>
        simp only [Option.map_none']
        exact (alGet_none_of_not_mem_keys
          (fun hk => hnd.1 (keys_filterMap_keyed_subset F ps _ hk))).trans rfl
    · rw [if_neg hak] at h
      rw [List.filterMap_cons]
      cases hF : F b with
      | some mm =>
        simp only [Option.map_some']
        rw [alGet_cons, if_neg hak]
        exact ih hnd.2 h
      | none =>
        simp only [Option.map_none']
        exact ih hnd.2 h

/-- The per-genre computation of `compute_genre_stats`, as a function of the
genre's movie-name set alone. -/
def genreStatFor (movieStats : List (List Char × MovieStat))
    (movieNames : List (List Char)) : Option GenreStat :=
  let stats := movieNames.filterMap (fun m =>
    match alGet m movieStats with
    | some st => if st.count > 0 then some st else none
    | none => none)
  if stats = [] then none
  else some ⟨(stats.map (·.avg)).sum / (stats.length : ℚ), (stats.map (·.count)).sum⟩

theorem compute_genre_stats_reshape (genres : List (List Char × List (List Char)))
    (movieStats : List (List Char × MovieStat)) :
    compute_genre_stats genres movieStats =
      genres.filterMap (fun p => (genreStatFor movieStats p.2).map (fun st => (p.1, st))) := by
  unfold compute_genre_stats genreStatFor
  refine congrArg genres.filterMap (funext fun p => ?_)
  by_cases h : p.2.filterMap (fun m =>
      match alGet m movieStats with
      | some st => if st.count > 0 then some st else none
      | none => none) = [] <;>
    simp [h]

theorem genreStatFor_eq_ratedMean (movieStats : List (List Char × MovieStat))
    (movieNames : List (List Char))
    (hpos : ∀ m st, alGet m movieStats = some st → 0 < st.count) :
    genreStatFor movieStats movieNames =
      (let rated := movieNames.filter (fun m => (alGet m movieStats).isSome)
       if rated = [] then none
       else some ⟨(rated.map (fun m => ((alGet m movieStats).getD ⟨0, 0⟩).avg)).sum /
           (rated.length : ℚ),
         (rated.map (fun m => ((alGet m movieStats).getD ⟨0, 0⟩).count)).sum⟩) := by
  have key : movieNames.filterMap (fun m =>
      match alGet m movieStats with
      | some st => if st.count > 0 then some st else none
      | none => none) =
      (movieNames.filter (fun m => (alGet m movieStats).isSome)).map
        (fun m => (alGet m movieStats).getD ⟨0, 0⟩) := by
    induction movieNames with
    | nil => rfl
    | cons m ms ih =>
      rw [List.filterMap_cons, List.filter_cons]
      cases hg : alGet m movieStats with
      | some st => simp [hg, hpos m st hg, ih]
      | none => simp [hg, ih]
  unfold genreStatFor
  rw [key]
  by_cases h : movieNames.filter (fun m => (alGet m movieStats).isSome) = []
  · simp [h]
  · rw [if_neg (by simpa using h), if_neg h, List.map_map, List.map_map, List.length_map]
    rfl

/-- C5: for a genre `g` of the catalog, `GENRE_STATS[g].avg_of_movie_avgs` is
the unweighted arithmetic mean, over every movie of `g` that has a
`MOVIE_STATS` entry, of that movie's average (each movie weighted equally),
and `total_ratings` is the sum of those movies' counts; a genre none of whose
movies is rated gets no `GENRE_STATS` entry. -/
theorem genre_stats_unweighted_mean
    (rbm : List (List Char × List (Int × ℚ)))
    (genres : List (List Char × List (List Char)))
    (g : List Char) (movies : List (List Char))
    (hnd : (genres.map Prod.fst).Nodup)
    (hg : alGet g genres = some movies) :
    (movies.filter (fun m => (alGet m (compute_movie_stats rbm)).isSome) = [] →
      alGet g (compute_genre_stats genres (compute_movie_stats rbm)) = none) ∧
    (movies.filter (fun m => (alGet m (compute_movie_stats rbm)).isSome) ≠ [] →
      alGet g (compute_genre_stats genres (compute_movie_stats rbm)) =
        some ⟨((movies.filter (fun m => (alGet m (compute_movie_stats rbm)).isSome)).map
              (fun m => ((alGet m (compute_movie_stats rbm)).getD ⟨0, 0⟩).avg)).sum /
            ((movies.filter (fun m => (alGet m (compute_movie_stats rbm)).isSome)).length : ℚ),
          ((movies.filter (fun m => (alGet m (compute_movie_stats rbm)).isSome)).map
            (fun m => ((alGet m (compute_movie_stats rbm)).getD ⟨0, 0⟩).count)).sum⟩) := by
  have hbase : alGet g (compute_genre_stats genres (compute_movie_stats rbm)) =
      genreStatFor (compute_movie_stats rbm) movies := by
    rw [compute_genre_stats_reshape]
    exact alGet_filterMap_keyed (genreStatFor (compute_movie_stats rbm)) genres g movies hnd hg
  rw [hbase, genreStatFor_eq_ratedMean _ _ (compute_movie_stats_count_pos rbm)]
  constructor
  · intro h
    simp [h]
  · intro h
    rw [if_neg h]

/-- Witness for C5 at the spec's own example: one genre holding a movie with
average 5 from one rating and a movie with average 1 from 100 ratings has
genre average 3 (not a volume-weighted mean) and 101 total ratings. -/
def c5Ratings : List (List Char × List (Int × ℚ)) :=
  [("X (2000)".toList, [(1, 5)]),
   ("Y (2001)".toList, (List.range 100).map (fun i => ((i : Int), 1)))]

/-- The genre index for the C5 witness. -/
def c5Genres : List (List Char × List (List Char)) :=
  [("drama".toList, ["X (2000)".toList, "Y (2001)".toList])]

theorem genre_stats_unweighted_mean_witness :
    alGet "drama".toList (compute_genre_stats c5Genres (compute_movie_stats c5Ratings)) =
      some ⟨3, 101⟩ := by
  have h := (genre_stats_unweighted_mean c5Ratings c5Genres "drama".toList
    ["X (2000)".toList, "Y (2001)".toList] (by decide) (by decide)).2
    (by with_unfolding_all decide)
  rw [h]
  with_unfolding_all decide

/-- C7: a parsed ratings row with non-negative user id whose finite rating
value lies outside [0, 5] is skipped without aborting — the row leaves the
seen-set and both rating indexes untouched and the loader simply moves to the
next row — while boundary ratings of exactly 0 or exactly 5 pass the range
check and are retained (when the movie resolves and the pair is new). -/
theorem out_of_range_rating_skipped
    (i : Nat) (raw : List Char) (moviesByName : List (List Char × MovieRec))
    (seen : List (Int × List Char)) (rst : RatingsState)
    (movieName : List Char) (rating : ℚ) (userId : Int)
    (hp : parse_ratings_line raw i = .ok (movieName, rating, userId))
    (hu : 0 ≤ userId) :
    ((rating < 0 ∨ 5 < rating) →
      ratingRowStep i raw moviesByName seen rst = .ok (seen, rst) ∧
      ∀ rest, processRatingsLines moviesByName i (raw :: rest) seen rst =
        processRatingsLines moviesByName (i + 1) rest seen rst) ∧
    ((rating = 0 ∨ rating = 5) → ∀ c, findCanonical moviesByName movieName = some c →
      (userId, c) ∉ seen →
      ratingRowStep i raw moviesByName seen rst =
        .ok ((userId, c) :: seen, addRating rst userId c rating)) := by
  constructor
  · intro hr
    have hstep : ratingRowStep i raw moviesByName seen rst = .ok (seen, rst) := by
      unfold ratingRowStep
      rw [hp]
      have h1 : ¬ userId < 0 := not_lt.2 hu
      have h2 : ¬ (0 ≤ rating ∧ rating ≤ 5) := by
        rcases hr with hr | hr
        · exact fun hc => absurd hc.1 (not_le.2 hr)
        · exact fun hc => absurd hc.2 (not_le.2 hr)
      simp only [Except.ok.injEq]
      simp [h1, h2]
    refine ⟨hstep, fun rest => ?_⟩
    show (match ratingRowStep i raw moviesByName seen rst with
      | .error e => (seen, rst, some e)
      | .ok (seen', rst') => processRatingsLines moviesByName (i + 1) rest seen' rst') =
      processRatingsLines moviesByName (i + 1) rest seen rst
    rw [hstep]
  · intro hr c hc hseen
    unfold ratingRowStep
    rw [hp]
    have h1 : ¬ userId < 0 := not_lt.2 hu
    have h2 : 0 ≤ rating ∧ rating ≤ 5 := by
      rcases hr with rfl | rfl
      · exact ⟨le_refl 0, by norm_num⟩
      · exact ⟨by norm_num, le_refl 5⟩
    simp [h1, h2, hc, hseen]

/-- The one-movie catalog index used by the C7 witness. -/
def c7Movies : List (List Char × MovieRec) :=
  [("Foo (2000)".toList, ⟨1, "Foo (2000)".toList, "Drama".toList, "drama".toList⟩)]

theorem out_of_range_rating_skipped_witness :
    (ratingRowStep 1 "Foo (2000)|7.5|1".toList c7Movies [] emptyRatings =
      .ok ([], emptyRatings)) ∧
    (ratingRowStep 1 "Foo (2000)|5|2".toList c7Movies [] emptyRatings =
      .ok ([(2, "Foo (2000)".toList)], addRating emptyRatings 2 "Foo (2000)".toList 5)) := by
  constructor
  · exact ((out_of_range_rating_skipped 1 "Foo (2000)|7.5|1".toList c7Movies [] emptyRatings
      "Foo (2000)".toList (15 / 2) 1 (by with_unfolding_all decide) (by decide)).1
      (by with_unfolding_all decide)).1
  · exact (out_of_range_rating_skipped 1 "Foo (2000)|5|2".toList c7Movies [] emptyRatings
      "Foo (2000)".toList 5 2 (by with_unfolding_all decide) (by decide)).2
      (Or.inr rfl) "Foo (2000)".toList (by decide) (by decide)

/-!
## Inversion lemmas for the movie-row loop body
-/

theorem parse_movies_line_error_line {raw : List Char} {i : Nat} {e : LoadErr}
    (h : parse_movies_line raw i = .error e) : e.lineNo = some i := by
  unfold parse_movies_line at h
  dsimp only at h
  repeat' split at h
  all_goals
    first
      | (injection h with he; subst he; rfl)
      | simp at h

theorem concept_key_error_line {nm : List Char} {i : Nat} {e : LoadErr}
    (h : concept_key nm i = .error e) : e.lineNo = some i := by
  unfold concept_key at h
  split at h
  · injection h with he
    subst he
    rfl
  · exact absurd h (by simp)

theorem movieRowStep_error_line {i : Nat} {raw : List Char}
    {ctid : List (List Char × Int)} {st : MoviesState} {e : LoadErr}
    (h : movieRowStep i raw ctid st = .error e) : e.lineNo = some i := by
  have finish_line : ∀ g mid nm ctid₂ st₂,
      movieRowFinish i g mid nm ctid₂ st₂ = .error e → e.lineNo = some i := by
    intro g mid nm ctid₂ st₂ hf
    unfold movieRowFinish at hf
    dsimp only at hf
    split at hf
    · exact absurd hf (by simp)
    · split at hf
      · injection hf with he
        subst he
        rfl
      · exact absurd hf (by simp)
  have checkid_line : ∀ g mid nm ck ctid₂ st₂,
      movieRowCheckId i g mid nm ck ctid₂ st₂ = .error e → e.lineNo = some i := by
    intro g mid nm ck ctid₂ st₂ hf
    unfold movieRowCheckId at hf
    split at hf
    · split at hf
      · injection hf with he
        subst he
        exact concept_key_error_line (by assumption)
      · split at hf
        · injection hf with he
          subst he
          rfl
        · exact finish_line _ _ _ _ _ hf
    · exact finish_line _ _ _ _ _ hf
  unfold movieRowStep at h
  split at h
  · injection h with he
    subst he
    exact parse_movies_line_error_line (by assumption)
  · split at h
    · injection h with he
      subst he
      rfl
    · split at h
      · injection h with he
        subst he
        exact concept_key_error_line (by assumption)
      · split at h
        · split at h
          · injection h with he
            subst he
            rfl
          · exact checkid_line _ _ _ _ _ _ h
        · exact checkid_line _ _ _ _ _ _ h

/-- Inversion of a successful movie-row step: the row parsed, every check
passed, the `concept_to_id` map gained the row's binding via `setdefault`,
and the catalog either gained a fresh canonical record or was left unchanged
by a kept-first duplicate; the genre was registered either way. -/
theorem movieRowStep_ok_cases {i : Nat} {raw : List Char}
    {ctid ctid' : List (List Char × Int)} {st st' : MoviesState}
    (h : movieRowStep i raw ctid st = .ok (ctid', st')) :
    ∃ genreOriginal movieId movieNameRaw ck,
      parse_movies_line raw i = .ok (genreOriginal, movieId, movieNameRaw) ∧
      ¬ movieId < 0 ∧
      concept_key movieNameRaw i = .ok ck ∧
      (∀ prevId, alGet ck ctid = some prevId → prevId = movieId) ∧
      ctid' = alSetd ck movieId ctid ∧
      (∀ m, alGet movieId st.moviesById = some m → concept_key m.name i = .ok ck) ∧
      ((alGet (get_canonical_movie_name st.moviesByName movieNameRaw) st.moviesByName = none ∧
         st' = registerGenre genreOriginal (get_canonical_movie_name st.moviesByName movieNameRaw)
           { st with
             moviesByName := alSet (get_canonical_movie_name st.moviesByName movieNameRaw)
               ⟨movieId, get_canonical_movie_name st.moviesByName movieNameRaw,
                 genreOriginal, norm_genre genreOriginal⟩ st.moviesByName,
             moviesById := alSet movieId
               ⟨movieId, get_canonical_movie_name st.moviesByName movieNameRaw,
                 genreOriginal, norm_genre genreOriginal⟩ st.moviesById }) ∨
       (∃ existing,
         alGet (get_canonical_movie_name st.moviesByName movieNameRaw) st.moviesByName =
           some existing ∧
         existing.movie_id = movieId ∧
         st' = registerGenre genreOriginal (get_canonical_movie_name st.moviesByName movieNameRaw)
           st)) := by
  have finish_ok : ∀ g mid nm ctid₂,
      movieRowFinish i g mid nm ctid₂ st = .ok (ctid', st') →
      ctid' = ctid₂ ∧
      ((alGet (get_canonical_movie_name st.moviesByName nm) st.moviesByName = none ∧
         st' = registerGenre g (get_canonical_movie_name st.moviesByName nm)
           { st with
             moviesByName := alSet (get_canonical_movie_name st.moviesByName nm)
               ⟨mid, get_canonical_movie_name st.moviesByName nm, g, norm_genre g⟩
               st.moviesByName,
             moviesById := alSet mid
               ⟨mid, get_canonical_movie_name st.moviesByName nm, g, norm_genre g⟩
               st.moviesById }) ∨
       (∃ existing,
         alGet (get_canonical_movie_name st.moviesByName nm) st.moviesByName = some existing ∧
         existing.movie_id = mid ∧
         st' = registerGenre g (get_canonical_movie_name st.moviesByName nm) st)) := by
    intro g mid nm ctid₂ hf
    unfold movieRowFinish at hf
    dsimp only at hf
    cases hex : alGet (get_canonical_movie_name st.moviesByName nm) st.moviesByName with
    | none =>
      rw [hex] at hf
      injection hf with h2
      injection h2 with e1 e2
      exact ⟨e1.symm, Or.inl ⟨rfl, e2.symm⟩⟩
    | some existing =>
      rw [hex] at hf
      dsimp only at hf
      by_cases hid : existing.movie_id ≠ mid
      · rw [if_pos hid] at hf
        exact absurd hf (by simp)
      · rw [if_neg hid] at hf
        injection hf with h2
        injection h2 with e1 e2
        exact ⟨e1.symm, Or.inr ⟨existing, rfl, not_not.1 hid, e2.symm⟩⟩
  have checkid_ok : ∀ g mid nm ck ctid₂,
      movieRowCheckId i g mid nm ck ctid₂ st = .ok (ctid', st') →
      (∀ m, alGet mid st.moviesById = some m → concept_key m.name i = .ok ck) ∧
      ctid' = ctid₂ ∧
      ((alGet (get_canonical_movie_name st.moviesByName nm) st.moviesByName = none ∧
         st' = registerGenre g (get_canonical_movie_name st.moviesByName nm)
           { st with
             moviesByName := alSet (get_canonical_movie_name st.moviesByName nm)
               ⟨mid, get_canonical_movie_name st.moviesByName nm, g, norm_genre g⟩
               st.moviesByName,
             moviesById := alSet mid
               ⟨mid, get_canonical_movie_name st.moviesByName nm, g, norm_genre g⟩
               st.moviesById }) ∨
       (∃ existing,
         alGet (get_canonical_movie_name st.moviesByName nm) st.moviesByName = some existing ∧
         existing.movie_id = mid ∧
         st' = registerGenre g (get_canonical_movie_name st.moviesByName nm) st)) := by
    intro g mid nm ck ctid₂ hf
    unfold movieRowCheckId at hf
    cases hm : alGet mid st.moviesById with
    | some m =>
      rw [hm] at hf
      dsimp only at hf
      cases hck : concept_key m.name i with
      | error e₁ =>
        rw [hck] at hf
        exact absurd hf (by simp)
      | ok eck =>
        rw [hck] at hf
        dsimp only at hf
        by_cases hne : eck ≠ ck
        · rw [if_pos hne] at hf
          exact absurd hf (by simp)
        · rw [if_neg hne] at hf
          refine ⟨?_, finish_ok _ _ _ _ hf⟩
          intro m' hm'
          injection hm' with hmm
          subst hmm
          rw [hck]
          exact congrArg Except.ok (not_not.1 hne)
    | none =>
      rw [hm] at hf
      dsimp only at hf
      refine ⟨?_, finish_ok _ _ _ _ hf⟩
      intro m' hm'
      exact absurd hm' (by simp)
  unfold movieRowStep at h
  cases hp : parse_movies_line raw i with
  | error e₁ =>
    rw [hp] at h
    exact absurd h (by simp)
  | ok t =>
    obtain ⟨g, mid, nm⟩ := t
    rw [hp] at h
    dsimp only at h
    by_cases hneg : mid < 0
    · rw [if_pos hneg] at h
      exact absurd h (by simp)
    · rw [if_neg hneg] at h
      cases hck : concept_key nm i with
      | error e₁ =>
        rw [hck] at h
        exact absurd h (by simp)
      | ok ck =>
        rw [hck] at h
        dsimp only at h
        cases hprev : alGet ck ctid with
        | some prevId =>
          rw [hprev] at h
          dsimp only at h
          by_cases hpe : prevId ≠ mid
          · rw [if_pos hpe] at h
            exact absurd h (by simp)
          · rw [if_neg hpe] at h
            obtain ⟨hid, hct, hrest⟩ := checkid_ok _ _ _ _ _ h
            exact ⟨g, mid, nm, ck, rfl, hneg, hck,
              (fun p hpp => by
                rw [hprev] at hpp
                injection hpp with hq
                subst hq
                exact not_not.1 hpe),
              hct, hid, hrest⟩
        | none =>
          rw [hprev] at h
          dsimp only at h
          obtain ⟨hid, hct, hrest⟩ := checkid_ok _ _ _ _ _ h
          exact ⟨g, mid, nm, ck, rfl, hneg, hck,
            (fun p hpp => by rw [hprev] at hpp; exact absurd hpp (by simp)),
            hct, hid, hrest⟩

theorem mem_setAdd_self {α : Type _} [DecidableEq α] (x : α) (s : List α) :
    x ∈ setAdd x s := by
  unfold setAdd
  by_cases h : x ∈ s
  · simp [h]
  · simp [h]

/-- C9: a no-op duplicate movie row — one whose name resolves to an existing
canonical record carrying the same id — leaves `MOVIES_BY_NAME` and
`MOVIES_BY_ID` untouched (the record keeps its first-seen genre), yet still
registers its genre: the canonical movie name is added to the row's genre
set and the genre's first-seen display casing is recorded via `setdefault`,
so one canonical movie can belong to several genres' movie sets. -/
theorem duplicate_row_registers_genre
    (i : Nat) (raw : List Char) (ctid ctid' : List (List Char × Int))
    (st st' : MoviesState) (genreOriginal : List Char) (movieId : Int)
    (movieNameRaw : List Char) (existing : MovieRec)
    (hp : parse_movies_line raw i = .ok (genreOriginal, movieId, movieNameRaw))
    (hex : alGet (get_canonical_movie_name st.moviesByName movieNameRaw) st.moviesByName =
      some existing)
    (hok : movieRowStep i raw ctid st = .ok (ctid', st')) :
    st'.moviesByName = st.moviesByName ∧
    st'.moviesById = st.moviesById ∧
    get_canonical_movie_name st.moviesByName movieNameRaw ∈
      (alGet (norm_genre genreOriginal) st'.genres).getD [] ∧
    st'.genreOriginalCase =
      alSetd (norm_genre genreOriginal) genreOriginal st.genreOriginalCase := by
  obtain ⟨g, mid, nm, ck, hp', hneg, hck, hprev, hct, hid, hrest⟩ := movieRowStep_ok_cases hok
  rw [hp] at hp'
  injection hp' with ht
  injection ht with h1 ht2
  injection ht2 with h2 h3
  subst h1
  subst h2
  subst h3
  rcases hrest with ⟨hnone, _⟩ | ⟨ex2, hex2, hid2, hst⟩
  · rw [hex] at hnone
    exact absurd hnone (by simp)
  · subst hst
    refine ⟨rfl, rfl, ?_, rfl⟩
    show get_canonical_movie_name st.moviesByName movieNameRaw ∈
      (alGet (norm_genre genreOriginal)
        (alSet (norm_genre genreOriginal)
          (setAdd (get_canonical_movie_name st.moviesByName movieNameRaw)
            ((alGet (norm_genre genreOriginal) st.genres).getD []))
          st.genres)).getD []
    rw [alGet_alSet, if_pos rfl]
    exact mem_setAdd_self _ _

/-- The catalog state after loading the single row `Comedy|1|Foo (2000)`,
used by the C9 witness. -/
def c9St1 : MoviesState :=
  (processMoviesLines 1 ["Comedy|1|Foo (2000)".toList] [] emptyMovies).2.1

/-- The `concept_to_id` map after that same row. -/
def c9Ctid1 : List (List Char × Int) :=
  (processMoviesLines 1 ["Comedy|1|Foo (2000)".toList] [] emptyMovies).1

/-- The expected state after the duplicate row `Drama|1|FOO (2000)`:
the movie maps are unchanged, and the canonical name now sits in both
genres' sets while the record keeps the first-seen genre `Comedy`. -/
def c9St2 : MoviesState :=
  { moviesById := [(1, ⟨1, "Foo (2000)".toList, "Comedy".toList, "comedy".toList⟩)],
    moviesByName := [("Foo (2000)".toList,
      ⟨1, "Foo (2000)".toList, "Comedy".toList, "comedy".toList⟩)],
    genres := [("comedy".toList, ["Foo (2000)".toList]),
      ("drama".toList, ["Foo (2000)".toList])],
    genreOriginalCase := [("comedy".toList, "Comedy".toList),
      ("drama".toList, "Drama".toList)] }

theorem duplicate_row_registers_genre_witness :
    (movieRowStep 2 "Drama|1|FOO (2000)".toList c9Ctid1 c9St1 = .ok (c9Ctid1, c9St2)) ∧
    c9St2.moviesByName = c9St1.moviesByName ∧
    "Foo (2000)".toList ∈ (alGet "drama".toList c9St2.genres).getD [] ∧
    "Foo (2000)".toList ∈ (alGet "comedy".toList c9St2.genres).getD [] := by
  have h := duplicate_row_registers_genre 2 "Drama|1|FOO (2000)".toList c9Ctid1 c9Ctid1
    c9St1 c9St2 "Drama".toList 1 "FOO (2000)".toList
    ⟨1, "Foo (2000)".toList, "Comedy".toList, "comedy".toList⟩
    (by decide) (by decide) (by decide)
  obtain ⟨h1, _, h3, _⟩ := h
  refine ⟨by decide, h1, ?_, by decide⟩
  have hcan : get_canonical_movie_name c9St1.moviesByName "FOO (2000)".toList =
      "Foo (2000)".toList := by decide
  have hng : norm_genre "Drama".toList = "drama".toList := by decide
  rw [hcan, hng] at h3
  exact h3

/-!
## C8: recommendations are the first three unseen movies in ranking order
-/

/-- Modelled from the claim's words, for comparison with the code's
`_movie_sort_key` tuple: global average descending, then rating count
descending, then display name ascending case-insensitively, then numeric id
ascending (with the source's defaults for movies without stats). -/
def specMovieRankLE (movieStats : List (List Char × MovieStat))
    (moviesByName : List (List Char × MovieRec)) (a b : List Char) : Bool :=
  let sa := (alGet a movieStats).getD ⟨0, 0⟩
  let sb := (alGet b movieStats).getD ⟨0, 0⟩
  let ia := ((alGet a moviesByName).map (·.movie_id)).getD (10 ^ 12)
  let ib := ((alGet b moviesByName).map (·.movie_id)).getD (10 ^ 12)
  sb.avg < sa.avg ∨ (sa.avg = sb.avg ∧ (sb.count < sa.count ∨ (sa.count = sb.count ∧
    (charListLT (pyLower a) (pyLower b) ∨ (pyLower a = pyLower b ∧ ia ≤ ib)))))

theorem movieRankLE_eq_spec (movieStats : List (List Char × MovieStat))
    (moviesByName : List (List Char × MovieRec)) (a b : List Char) :
    movieRankLE movieStats moviesByName a b = specMovieRankLE movieStats moviesByName a b := by
  unfold movieRankLE key4LE movie_sort_key specMovieRankLE
  dsimp only
  rw [Bool.eq_iff_iff, decide_eq_true_iff, decide_eq_true_iff]
  constructor
  · rintro (h | ⟨he, h | ⟨hc, h⟩⟩)
    · exact Or.inl (neg_lt_neg_iff.1 h)
    · exact Or.inr ⟨neg_inj.1 he, Or.inl (Nat.cast_lt.1 (neg_lt_neg_iff.1 h))⟩
    · exact Or.inr ⟨neg_inj.1 he, Or.inr ⟨Nat.cast_inj.1 (neg_inj.1 hc), h⟩⟩
  · rintro (h | ⟨he, h | ⟨hc, h⟩⟩)
    · exact Or.inl (neg_lt_neg_iff.2 h)
    · exact Or.inr ⟨neg_inj.2 he, Or.inl (neg_lt_neg_iff.2 (Nat.cast_lt.2 h))⟩
    · exact Or.inr ⟨neg_inj.2 he, Or.inr ⟨neg_inj.2 (Nat.cast_inj.2 hc), h⟩⟩

/-- Modelled from the claim's words: list the top genre's movies in
movie-ranking order, exclude every movie the user has rated, return the
first three. -/
def recommend_spec (movieStats : List (List Char × MovieStat))
    (moviesByName : List (List Char × MovieRec))
    (genres : List (List Char × List (List Char)))
    (ratingsByUser : List (Int × List (List Char × ℚ)))
    (uid : Int) (normG : List Char) : List (List Char) :=
  ((sortBy (specMovieRankLE movieStats moviesByName) ((alGet normG genres).getD [])).filter
    (fun m => ¬ m ∈ ((alGet uid ratingsByUser).getD []).map (·.1))).take 3

/-- C8: for every user with a `USER_TOP_GENRE` entry, the recommendation
query returns exactly the first three movies (fewer if unavailable) of the
user's top genre in movie-ranking order — global average descending, rating
count descending, display name ascending case-insensitively, numeric id
ascending — after excluding every movie the user has already rated. -/
theorem recommend_top3_ranking_order
    (movieStats : List (List Char × MovieStat))
    (moviesByName : List (List Char × MovieRec))
    (genres : List (List Char × List (List Char)))
    (ratingsByUser : List (Int × List (List Char × ℚ)))
    (userTopGenre : List (Int × (List Char × ℚ × Nat)))
    (uid : Int) (top : List Char × ℚ × Nat)
    (h : alGet uid userTopGenre = some top) :
    feature_recommend_movies movieStats moviesByName genres ratingsByUser userTopGenre uid =
      some (recommend_spec movieStats moviesByName genres ratingsByUser uid top.1) := by
  unfold feature_recommend_movies
  rw [h]
  simp only [Option.map_some']
  unfold recommend_for recommend_spec
  have : sortBy (movieRankLE movieStats moviesByName) ((alGet top.1 genres).getD []) =
      sortBy (specMovieRankLE movieStats moviesByName) ((alGet top.1 genres).getD []) := by
    refine congrArg (fun le => sortBy le ((alGet top.1 genres).getD [])) ?_
    funext a b
    exact movieRankLE_eq_spec movieStats moviesByName a b
  rw [this]

/-- Stats for the C8 witness: X and Y share average 4.9 with X having more
ratings, Z has average 4.0. -/
def c8Stats : List (List Char × MovieStat) :=
  [("X (2000)".toList, ⟨49 / 10, 5⟩), ("Y (2001)".toList, ⟨49 / 10, 2⟩),
   ("Z (2002)".toList, ⟨4, 3⟩)]

/-- Catalog records for the C8 witness. -/
def c8Movies : List (List Char × MovieRec) :=
  [("X (2000)".toList, ⟨1, "X (2000)".toList, "Action".toList, "action".toList⟩),
   ("Y (2001)".toList, ⟨2, "Y (2001)".toList, "Action".toList, "action".toList⟩),
   ("Z (2002)".toList, ⟨3, "Z (2002)".toList, "Action".toList, "action".toList⟩)]

/-- Genre index for the C8 witness. -/
def c8Genres : List (List Char × List (List Char)) :=
  [("action".toList, ["X (2000)".toList, "Y (2001)".toList, "Z (2002)".toList])]

/-- User 7 has already rated X. -/
def c8Rbu : List (Int × List (List Char × ℚ)) :=
  [(7, [("X (2000)".toList, 5)])]

/-- User 7's cached top genre. -/
def c8TopGenre : List (Int × (List Char × ℚ × Nat)) :=
  [(7, ("action".toList, 5, 1))]

theorem recommend_top3_ranking_order_witness :
    feature_recommend_movies c8Stats c8Movies c8Genres c8Rbu c8TopGenre 7 =
      some ["Y (2001)".toList, "Z (2002)".toList] := by
  rw [recommend_top3_ranking_order c8Stats c8Movies c8Genres c8Rbu c8TopGenre 7
    ("action".toList, 5, 1) (by decide)]
  with_unfolding_all decide

/-!
## Inversion of the two loader loops at a raise
-/

theorem parse_ratings_line_error_line {raw : List Char} {i : Nat} {e : LoadErr}
    (h : parse_ratings_line raw i = .error e) : e.lineNo = some i := by
  unfold parse_ratings_line at h
  dsimp only at h
  repeat' split at h
  all_goals
    first
      | (injection h with he; subst he; rfl)
      | simp at h

theorem ratingRowStep_error_line {i : Nat} {raw : List Char}
    {moviesByName : List (List Char × MovieRec)} {seen : List (Int × List Char)}
    {rst : RatingsState} {e : LoadErr}
    (h : ratingRowStep i raw moviesByName seen rst = .error e) : e.lineNo = some i := by
  unfold ratingRowStep at h
  repeat' split at h
  all_goals
    first
      | (injection h with he; subst he; rfl)
      | (injection h with he; subst he; exact parse_ratings_line_error_line (by assumption))
      | simp at h

theorem processMoviesLines_error_split :
    ∀ (lines : List (List Char)) (i : Nat) (ctid : List (List Char × Int)) (st : MoviesState)
      (ctidE : List (List Char × Int)) (stE : MoviesState) (e : LoadErr),
      processMoviesLines i lines ctid st = (ctidE, stE, some e) →
      ∃ pre raw post, lines = pre ++ raw :: post ∧
        processMoviesLines i pre ctid st = (ctidE, stE, none) ∧
        movieRowStep (i + pre.length) raw ctidE stE = .error e
  | [], i, ctid, st, ctidE, stE, e => by
    intro h
    exact absurd h (by simp [processMoviesLines])
  | raw :: rest, i, ctid, st, ctidE, stE, e => by
    intro h
    unfold processMoviesLines at h
    cases hstep : movieRowStep i raw ctid st with
    | error e₁ =>
      rw [hstep] at h
      injection h with h1 h2
      injection h2 with h2 h3
      injection h3 with h3
      subst h1
      subst h2
      subst h3
      exact ⟨[], raw, rest, rfl, rfl, by simpa using hstep⟩
    | ok t =>
      obtain ⟨ctid₂, st₂⟩ := t
      rw [hstep] at h
      dsimp only at h
      obtain ⟨pre', raw', post', hsplit, hpre, hrow⟩ :=
        processMoviesLines_error_split rest (i + 1) ctid₂ st₂ ctidE stE e h
      refine ⟨raw :: pre', raw', post', by rw [hsplit, List.cons_append], ?_, ?_⟩
      · show (match movieRowStep i raw ctid st with
          | .error e₂ => (ctid, st, some e₂)
          | .ok (c, s) => processMoviesLines (i + 1) pre' c s) = (ctidE, stE, none)
        rw [hstep]
        exact hpre
      · have : i + (raw :: pre').length = i + 1 + pre'.length := by
          simp [List.length_cons]
          omega
        rw [this]
        exact hrow

theorem processRatingsLines_error_split (moviesByName : List (List Char × MovieRec)) :
    ∀ (lines : List (List Char)) (i : Nat) (seen : List (Int × List Char)) (rst : RatingsState)
      (seenE : List (Int × List Char)) (rstE : RatingsState) (e : LoadErr),
      processRatingsLines moviesByName i lines seen rst = (seenE, rstE, some e) →
      ∃ pre raw post, lines = pre ++ raw :: post ∧
        processRatingsLines moviesByName i pre seen rst = (seenE, rstE, none) ∧
        ratingRowStep (i + pre.length) raw moviesByName seenE rstE = .error e
  | [], i, seen, rst, seenE, rstE, e => by
    intro h
    exact absurd h (by simp [processRatingsLines])
  | raw :: rest, i, seen, rst, seenE, rstE, e => by
    intro h
    unfold processRatingsLines at h
    cases hstep : ratingRowStep i raw moviesByName seen rst with
    | error e₁ =>
      rw [hstep] at h
      injection h with h1 h2
      injection h2 with h2 h3
      injection h3 with h3
      subst h1
      subst h2
      subst h3
      exact ⟨[], raw, rest, rfl, rfl, by simpa using hstep⟩
    | ok t =>
      obtain ⟨seen₂, rst₂⟩ := t
      rw [hstep] at h
      dsimp only at h
      obtain ⟨pre', raw', post', hsplit, hpre, hrow⟩ :=
        processRatingsLines_error_split moviesByName rest (i + 1) seen₂ rst₂ seenE rstE e h
      refine ⟨raw :: pre', raw', post', by rw [hsplit, List.cons_append], ?_, ?_⟩
      · show (match ratingRowStep i raw moviesByName seen rst with
          | .error e₂ => (seen, rst, some e₂)
          | .ok (sn, r) => processRatingsLines moviesByName (i + 1) pre' sn r) =
          (seenE, rstE, none)
        rw [hstep]
        exact hpre
      · have : i + (raw :: pre').length = i + 1 + pre'.length := by
          simp [List.length_cons]
          omega
        rw [this]
        exact hrow

/-!
## C2 (corrected): the state after a failed load is the state of the
successfully processed prefix, not the pre-call state
-/

/-- C2 (amended): when a loader raises, the visible state equals the state
reached after successfully processing exactly the non-blank rows before the
failing row (for the empty-file failure the state is unchanged); entries
built from earlier rows of the aborted file therefore remain visible, and
atomicity is provided only by the caller's unconditional clear before each
load attempt. -/
theorem load_error_partial_prefix_state :
    (∀ (file : List (List Char)) (st₀ st' : MoviesState) (e : LoadErr),
      load_movies_file file st₀ = (st', some e) →
      st' = st₀ ∨ ∃ pre raw post ctidE,
        fileLines file = pre ++ raw :: post ∧
        processMoviesLines 1 pre [] st₀ = (ctidE, st', none) ∧
        movieRowStep (1 + pre.length) raw ctidE st' = .error e) ∧
    (∀ (moviesByName : List (List Char × MovieRec)) (file : List (List Char))
      (r₀ r' : RatingsState) (e : LoadErr),
      load_ratings_file moviesByName file r₀ = (r', some e) →
      r' = r₀ ∨ ∃ pre raw post seenE,
        fileLines file = pre ++ raw :: post ∧
        processRatingsLines moviesByName 1 pre [] r₀ = (seenE, r', none) ∧
        ratingRowStep (1 + pre.length) raw moviesByName seenE r' = .error e) := by
  constructor
  · intro file st₀ st' e h
    unfold load_movies_file at h
    dsimp only at h
    by_cases hemp : (fileLines file).isEmpty
    · rw [if_pos hemp] at h
      injection h with h1 h2
      exact Or.inl h1.symm
    · rw [if_neg hemp] at h
      obtain ⟨h1, h2⟩ : (processMoviesLines 1 (fileLines file) [] st₀).2.1 = st' ∧
          (processMoviesLines 1 (fileLines file) [] st₀).2.2 = some e := by
        injection h with a b
        exact ⟨a, b⟩
      have hr : processMoviesLines 1 (fileLines file) [] st₀ =
          ((processMoviesLines 1 (fileLines file) [] st₀).1, st', some e) := by
        rw [← h1, ← h2]
      obtain ⟨pre, raw, post, hsplit, hpre, hrow⟩ :=
        processMoviesLines_error_split _ _ _ _ _ _ _ hr
      exact Or.inr ⟨pre, raw, post, _, hsplit, hpre, hrow⟩
  · intro moviesByName file r₀ r' e h
    unfold load_ratings_file at h
    dsimp only at h
    by_cases hemp : (fileLines file).isEmpty
    · rw [if_pos hemp] at h
      injection h with h1 h2
      exact Or.inl h1.symm
    · rw [if_neg hemp] at h
      cases hproc : processRatingsLines moviesByName 1 (fileLines file) [] r₀ with
      | mk seenE t =>
        obtain ⟨rstE, eo⟩ := t
        rw [hproc] at h
        cases eo with
        | some e₁ =>
          dsimp only at h
          injection h with h1 h2
          injection h2 with h2
          subst h1
          subst h2
          obtain ⟨pre, raw, post, hsplit, hpre, hrow⟩ :=
            processRatingsLines_error_split moviesByName _ _ _ _ _ _ _ hproc
          exact Or.inr ⟨pre, raw, post, _, hsplit, hpre, hrow⟩
        | none =>
          dsimp only at h
          injection h with h1 h2
          exact absurd h2 (by simp)

/-- The two-line movies file whose second row is malformed, used to refute
the original atomicity claim. -/
def c2File : List (List Char) := ["Drama|1|Foo (2009)".toList, "bad".toList]

/-- Counterexample to C2 as stated: `load_movies_file` raises on `c2File`,
yet the catalog state afterwards is not the pre-call (empty) state — the
record built from the valid first row remains visible. -/
theorem load_not_atomic_counterexample :
    (load_movies_file c2File emptyMovies).2 = some (.moviesWrongFieldCount 2) ∧
    (load_movies_file c2File emptyMovies).1 ≠ emptyMovies ∧
    alGet "Foo (2009)".toList (load_movies_file c2File emptyMovies).1.moviesByName =
      some ⟨1, "Foo (2009)".toList, "Drama".toList, "drama".toList⟩ := by
  refine ⟨by decide, ?_, by decide⟩
  intro heq
  have h2 : alGet "Foo (2009)".toList (load_movies_file c2File emptyMovies).1.moviesByName =
      some ⟨1, "Foo (2009)".toList, "Drama".toList, "drama".toList⟩ := by decide
  rw [heq] at h2
  exact absurd h2 (by decide)

theorem load_error_partial_prefix_state_witness :
    (load_movies_file c2File emptyMovies).1 = emptyMovies ∨
    ∃ pre raw post ctidE,
      fileLines c2File = pre ++ raw :: post ∧
      processMoviesLines 1 pre [] emptyMovies = (ctidE, (load_movies_file c2File emptyMovies).1, none) ∧
      movieRowStep (1 + pre.length) raw ctidE (load_movies_file c2File emptyMovies).1 =
        .error (.moviesWrongFieldCount 2) :=
  load_error_partial_prefix_state.1 c2File emptyMovies
    (load_movies_file c2File emptyMovies).1 (.moviesWrongFieldCount 2) (by decide)

/-!
## C3 (corrected): error line numbers count non-blank lines only
-/

/-- C3 (amended): a loader abort caused by a row carries the row's 1-based
position among the non-blank lines of the file — blank and whitespace-only
lines are dropped before numbering, so the reported number is not the
physical line number when blank lines precede the offending row. -/
theorem load_error_line_among_nonblank :
    (∀ (file : List (List Char)) (st₀ st' : MoviesState) (e : LoadErr),
      load_movies_file file st₀ = (st', some e) → e ≠ .moviesFileEmpty →
      ∃ pre raw post ctidE,
        fileLines file = pre ++ raw :: post ∧
        processMoviesLines 1 pre [] st₀ = (ctidE, st', none) ∧
        movieRowStep (1 + pre.length) raw ctidE st' = .error e ∧
        e.lineNo = some (pre.length + 1)) ∧
    (∀ (moviesByName : List (List Char × MovieRec)) (file : List (List Char))
      (r₀ r' : RatingsState) (e : LoadErr),
      load_ratings_file moviesByName file r₀ = (r', some e) → e ≠ .ratingsFileEmpty →
      ∃ pre raw post seenE,
        fileLines file = pre ++ raw :: post ∧
        processRatingsLines moviesByName 1 pre [] r₀ = (seenE, r', none) ∧
        ratingRowStep (1 + pre.length) raw moviesByName seenE r' = .error e ∧
        e.lineNo = some (pre.length + 1)) := by
  constructor
  · intro file st₀ st' e h hne
    unfold load_movies_file at h
    dsimp only at h
    by_cases hemp : (fileLines file).isEmpty
    · rw [if_pos hemp] at h
      injection h with h1 h2
      injection h2 with h2
      exact absurd h2.symm hne
    · rw [if_neg hemp] at h
      obtain ⟨h1, h2⟩ : (processMoviesLines 1 (fileLines file) [] st₀).2.1 = st' ∧
          (processMoviesLines 1 (fileLines file) [] st₀).2.2 = some e := by
        injection h with a b
        exact ⟨a, b⟩
      have hr : processMoviesLines 1 (fileLines file) [] st₀ =
          ((processMoviesLines 1 (fileLines file) [] st₀).1, st', some e) := by
        rw [← h1, ← h2]
      obtain ⟨pre, raw, post, hsplit, hpre, hrow⟩ :=
        processMoviesLines_error_split _ _ _ _ _ _ _ hr
      have hline := movieRowStep_error_line hrow
      refine ⟨pre, raw, post, _, hsplit, hpre, hrow, ?_⟩
      rw [hline]
      congr 1
      omega
  · intro moviesByName file r₀ r' e h hne
    unfold load_ratings_file at h
    dsimp only at h
    by_cases hemp : (fileLines file).isEmpty
    · rw [if_pos hemp] at h
      injection h with h1 h2
      injection h2 with h2
      exact absurd h2.symm hne
    · rw [if_neg hemp] at h
      cases hproc : processRatingsLines moviesByName 1 (fileLines file) [] r₀ with
      | mk seenE t =>
        obtain ⟨rstE, eo⟩ := t
        rw [hproc] at h
        cases eo with
        | some e₁ =>
          dsimp only at h
          injection h with h1 h2
          injection h2 with h2
          subst h1
          subst h2
          obtain ⟨pre, raw, post, hsplit, hpre, hrow⟩ :=
            processRatingsLines_error_split moviesByName _ _ _ _ _ _ _ hproc
          have hline := ratingRowStep_error_line hrow
          refine ⟨pre, raw, post, _, hsplit, hpre, hrow, ?_⟩
          rw [hline]
          congr 1
          omega
        | none =>
          dsimp only at h
          injection h with h1 h2
          exact absurd h2 (by simp)

/-- A file whose first physical line is blank and whose second physical line
is malformed. -/
def c3File : List (List Char) := ["".toList, "bad".toList]

/-- Counterexample to C3 as stated: the offending row is the second physical
line of the file (a blank line precedes it), yet the raised error carries
line number 1 — the position among non-blank lines, not among physical
lines. -/
theorem line_number_skips_blank_counterexample :
    c3File.length = 2 ∧ c3File.get? 0 = some [] ∧ c3File.get? 1 = some "bad".toList ∧
    (load_movies_file c3File emptyMovies).2 = some (.moviesWrongFieldCount 1) := by
  decide

theorem load_error_line_among_nonblank_witness :
    ∃ pre raw post ctidE,
      fileLines c3File = pre ++ raw :: post ∧
      processMoviesLines 1 pre [] emptyMovies =
        (ctidE, (load_movies_file c3File emptyMovies).1, none) ∧
      movieRowStep (1 + pre.length) raw ctidE (load_movies_file c3File emptyMovies).1 =
        .error (.moviesWrongFieldCount 1) ∧
      (LoadErr.moviesWrongFieldCount 1).lineNo = some (pre.length + 1) :=
  load_error_line_among_nonblank.1 c3File emptyMovies
    (load_movies_file c3File emptyMovies).1 (.moviesWrongFieldCount 1)
    (by decide) (by decide)

/-!
## C4 (corrected): whitespace before the parenthesized year is optional
-/

theorem mem_dropWhile_mem {p : Char → Bool} {l : List Char} {c : Char}
    (h : c ∈ l.dropWhile p) : c ∈ l := by
  induction l with
  | nil => simp at h
  | cons a as ih =>
    rw [List.dropWhile_cons] at h
    by_cases ha : p a
    · simp only [ha, if_true] at h
      exact List.mem_cons_of_mem _ (ih h)
    · simpa [ha] using h

theorem dropWhile_eq_nil_all {p : Char → Bool} {l : List Char}
    (h : l.dropWhile p = []) : ∀ c ∈ l, p c = true := by
  induction l with
  | nil => simp
  | cons a as ih =>
    rw [List.dropWhile_cons] at h
    by_cases ha : p a
    · simp only [ha, if_true] at h
      intro c hc
      rcases List.mem_cons.1 hc with rfl | hm
      · exact ha
      · exact ih h c hm
    · simp [ha] at h

theorem dropWhile_append_all {p : Char → Bool} {a : List Char} (b : List Char)
    (h : ∀ c ∈ a, p c = true) : (a ++ b).dropWhile p = b.dropWhile p := by
  induction a with
  | nil => rfl
  | cons x xs ih =>
    rw [List.cons_append, List.dropWhile_cons, if_pos (h x (List.mem_cons_self _ _))]
    exact ih (fun c hc => h c (List.mem_cons_of_mem _ hc))

theorem dropWhile_cons_false {p : Char → Bool} {x : Char} (l : List Char)
    (h : p x = false) : (x :: l).dropWhile p = x :: l := by
  rw [List.dropWhile_cons, if_neg (by simp [h])]

theorem digit_not_space {c : Char} (h : c.isDigit = true) : pyIsSpace c = false := by
  by_contra hs
  have hs' : pyIsSpace c = true := by
    cases hp : pyIsSpace c
    · exact absurd hp hs
    · rfl
  have : ((((c = ' ' ∨ c = '\t') ∨ c = '\n') ∨ c = '\x0d') ∨ c = '\x0b') ∨ c = '\x0c' := by
    simpa [pyIsSpace] using hs'
  rcases this with ((((rfl | rfl) | rfl) | rfl) | rfl) | rfl <;> simp [Char.isDigit] at h

/-- Modelled from the amended claim's words: the name decomposes as a
non-empty title (no newline), optional whitespace, `'('`, optional
whitespace, exactly four digits, optional whitespace, `')'`, optional
trailing whitespace — with no whitespace required between title and
parenthesis. -/
def amendedTitleShape (s : List Char) : Prop :=
  ∃ title w₁ w₂ d w₃ w₄,
    s = title ++ w₁ ++ '(' :: (w₂ ++ d ++ w₃ ++ ')' :: w₄) ∧
    title ≠ [] ∧ (∀ c ∈ title, c ≠ '\n') ∧
    (∀ c ∈ w₁, pyIsSpace c = true) ∧ (∀ c ∈ w₂, pyIsSpace c = true) ∧
    d.length = 4 ∧ (∀ c ∈ d, c.isDigit = true) ∧
    (∀ c ∈ w₃, pyIsSpace c = true) ∧ (∀ c ∈ w₄, pyIsSpace c = true)

theorem amendedTitleShape_isSome {s : List Char} (hs : amendedTitleShape s) :
    (extractTitleYear s).isSome := by
  obtain ⟨title, w₁, w₂, d, w₃, w₄, rfl, hto, hnl, hw₁, hw₂, hd4, hdd, hw₃, hw₄⟩ := hs
  obtain ⟨d₁, d₂, d₃, d₄, rfl⟩ : ∃ a b c e, d = [a, b, c, e] := by
    match d, hd4 with
    | [a, b, c, e], _ => exact ⟨a, b, c, e, rfl⟩
  have e0 : (title ++ w₁ ++ '(' :: (w₂ ++ [d₁, d₂, d₃, d₄] ++ w₃ ++ ')' :: w₄)).reverse =
      w₄.reverse ++ ')' :: (w₃.reverse ++
        (d₄ :: d₃ :: d₂ :: d₁ :: (w₂.reverse ++ '(' :: (w₁.reverse ++ title.reverse)))) := by
    simp [List.reverse_append, List.reverse_cons, List.append_assoc]
  have h0 : (title ++ w₁ ++ '(' :: (w₂ ++ [d₁, d₂, d₃, d₄] ++ w₃ ++ ')' :: w₄)).reverse.dropWhile
        pyIsSpace =
      ')' :: (w₃.reverse ++
        (d₄ :: d₃ :: d₂ :: d₁ :: (w₂.reverse ++ '(' :: (w₁.reverse ++ title.reverse)))) := by
    rw [e0, dropWhile_append_all _ (fun c hc => hw₄ c (List.mem_reverse.1 hc)),
      dropWhile_cons_false _ (by decide)]
  have h2 : (w₃.reverse ++
        (d₄ :: d₃ :: d₂ :: d₁ :: (w₂.reverse ++ '(' :: (w₁.reverse ++ title.reverse)))).dropWhile
        pyIsSpace =
      d₄ :: d₃ :: d₂ :: d₁ :: (w₂.reverse ++ '(' :: (w₁.reverse ++ title.reverse)) := by
    rw [dropWhile_append_all _ (fun c hc => hw₃ c (List.mem_reverse.1 hc)),
      dropWhile_cons_false _ (digit_not_space (hdd d₄ (by simp)))]
  have h4 : (w₂.reverse ++ '(' :: (w₁.reverse ++ title.reverse)).dropWhile pyIsSpace =
      '(' :: (w₁.reverse ++ title.reverse) := by
    rw [dropWhile_append_all _ (fun c hc => hw₂ c (List.mem_reverse.1 hc)),
      dropWhile_cons_false _ (by decide)]
  have hdig : (d₄.isDigit && d₃.isDigit && d₂.isDigit && d₁.isDigit) = true := by
    rw [hdd d₁ (by simp), hdd d₂ (by simp), hdd d₃ (by simp), hdd d₄ (by simp)]
    rfl
  have h5 : (w₁.reverse ++ title.reverse).dropWhile pyIsSpace =
      title.reverse.dropWhile pyIsSpace :=
    dropWhile_append_all _ (fun c hc => hw₁ c (List.mem_reverse.1 hc))
  unfold extractTitleYear
  rw [h0]
  simp only [h2, hdig, h4, h5, if_true]
  cases htt : title.reverse.dropWhile pyIsSpace with
  | nil =>
    have hrev : (w₁.reverse ++ title.reverse).reverse = title ++ w₁ := by
      rw [List.reverse_append, List.reverse_reverse, List.reverse_reverse]
    cases title with
    | nil => exact absurd rfl hto
    | cons t0 ts =>
      simp [hrev, hnl t0 (List.mem_cons_self _ _)]
  | cons c0 cs =>
    have hsub : ¬ '\n' ∈ (c0 :: cs).reverse := by
      intro hmem
      have hm2 : '\n' ∈ title.reverse.dropWhile pyIsSpace := by
        rw [htt]
        exact List.mem_reverse.1 hmem
      exact absurd (List.mem_reverse.1 (mem_dropWhile_mem hm2))
        (by intro hx; exact absurd rfl (hnl _ hx))
    simp only [List.mem_reverse, List.mem_cons, not_or] at hsub
    simp
    exact ⟨hsub.2, hsub.1⟩

theorem isSome_amendedTitleShape {s : List Char} (h : (extractTitleYear s).isSome) :
    amendedTitleShape s := by
  unfold extractTitleYear at h
  cases h0 : s.reverse.dropWhile pyIsSpace with
  | nil =>
    rw [h0] at h
    simp at h
  | cons c r1 =>
    rw [h0] at h
    try simp only at h
    by_cases hc : c = ')'
    · subst hc
      rw [if_pos rfl] at h
      have e1 : s.reverse.takeWhile pyIsSpace ++ ')' :: r1 = s.reverse := by
        rw [← h0]
        exact List.takeWhile_append_dropWhile _ _
      cases h2 : r1.dropWhile pyIsSpace with
      | nil =>
        rw [h2] at h
        simp at h
      | cons y0 t1 =>
        cases t1 with
        | nil =>
          rw [h2] at h
          simp at h
        | cons y1 t2 =>
          cases t2 with
          | nil =>
            rw [h2] at h
            simp at h
          | cons y2 t3 =>
            cases t3 with
            | nil =>
              rw [h2] at h
              simp at h
            | cons y3 r3 =>
              rw [h2] at h
              try simp only at h
              have e2 : r1.takeWhile pyIsSpace ++ y0 :: y1 :: y2 :: y3 :: r3 = r1 := by
                rw [← h2]
                exact List.takeWhile_append_dropWhile _ _
              by_cases hdig : (y0.isDigit && y1.isDigit && y2.isDigit && y3.isDigit) = true
              · rw [if_pos hdig] at h
                try simp only at h
                cases h4 : r3.dropWhile pyIsSpace with
                | nil =>
                  rw [h4] at h
                  simp at h
                | cons c2 r5 =>
                  rw [h4] at h
                  try simp only at h
                  by_cases hc2 : c2 = '('
                  · subst hc2
                    rw [if_pos rfl] at h
                    have e3 : r3.takeWhile pyIsSpace ++ '(' :: r5 = r3 := by
                      rw [← h4]
                      exact List.takeWhile_append_dropWhile _ _
                    have hdig4 : y0.isDigit = true ∧ y1.isDigit = true ∧
                        y2.isDigit = true ∧ y3.isDigit = true := by
                      simpa [Bool.and_eq_true, and_assoc] using hdig
                    have hs : s = r5.reverse ++ '(' ::
                        ((r3.takeWhile pyIsSpace).reverse ++ [y3, y2, y1, y0] ++
                          (r1.takeWhile pyIsSpace).reverse ++
                          ')' :: (s.reverse.takeWhile pyIsSpace).reverse) := by
                      conv_lhs => rw [← List.reverse_reverse s, ← e1, ← e2, ← e3]
                      simp [List.reverse_append, List.append_assoc]
                    by_cases hA : (r5.dropWhile pyIsSpace).reverse = []
                    · rw [if_pos hA] at h
                      have hr5ws : ∀ x ∈ r5, pyIsSpace x = true :=
                        dropWhile_eq_nil_all (by simpa using hA)
                      cases hrev : r5.reverse with
                      | nil =>
                        rw [hrev] at h
                        simp at h
                      | cons c0 tail =>
                        rw [hrev] at h
                        try simp only at h
                        by_cases hn : c0 = '\n'
                        · rw [if_pos hn] at h
                          simp at h
                        · refine ⟨[c0], tail, (r3.takeWhile pyIsSpace).reverse, [y3, y2, y1, y0],
                            (r1.takeWhile pyIsSpace).reverse,
                            (s.reverse.takeWhile pyIsSpace).reverse, ?_, by simp, ?_, ?_, ?_,
                            rfl, ?_, ?_, ?_⟩
                          · conv_lhs => rw [hs, hrev]
                            simp only [List.cons_append, List.singleton_append,
                              List.append_assoc, List.nil_append]
                          · intro x hx
                            rcases List.mem_singleton.1 hx with rfl
                            exact hn
                          · intro x hx
                            have : x ∈ r5.reverse := by
                              rw [hrev]
                              exact List.mem_cons_of_mem _ hx
                            exact hr5ws x (List.mem_reverse.1 this)
                          · intro x hx
                            exact List.mem_takeWhile_imp (List.mem_reverse.1 hx)
                          · intro x hx
                            simp only [List.mem_cons, List.not_mem_nil, or_false] at hx
                            rcases hx with rfl | rfl | rfl | rfl
                            · exact hdig4.2.2.2
                            · exact hdig4.2.2.1
                            · exact hdig4.2.1
                            · exact hdig4.1
                          · intro x hx
                            exact List.mem_takeWhile_imp (List.mem_reverse.1 hx)
                          · intro x hx
                            exact List.mem_takeWhile_imp (List.mem_reverse.1 hx)
                    · rw [if_neg hA] at h
                      by_cases hmem : '\n' ∈ (r5.dropWhile pyIsSpace).reverse
                      · rw [if_pos hmem] at h
                        simp at h
                      · refine ⟨(r5.dropWhile pyIsSpace).reverse,
                          (r5.takeWhile pyIsSpace).reverse,
                          (r3.takeWhile pyIsSpace).reverse, [y3, y2, y1, y0],
                          (r1.takeWhile pyIsSpace).reverse,
                          (s.reverse.takeWhile pyIsSpace).reverse, ?_, hA, ?_, ?_, ?_,
                          rfl, ?_, ?_, ?_⟩
                        · have hjoin : (r5.dropWhile pyIsSpace).reverse ++
                              (r5.takeWhile pyIsSpace).reverse = r5.reverse := by
                            rw [← List.reverse_append, List.takeWhile_append_dropWhile]
                          set w4 := (s.reverse.takeWhile pyIsSpace).reverse with hw4
                          rw [hs, ← hjoin]
                        · intro x hx
                          intro hxe
                          subst hxe
                          exact hmem hx
                        · intro x hx
                          exact List.mem_takeWhile_imp (List.mem_reverse.1 hx)
                        · intro x hx
                          exact List.mem_takeWhile_imp (List.mem_reverse.1 hx)
                        · intro x hx
                          simp only [List.mem_cons, List.not_mem_nil, or_false] at hx
                          rcases hx with rfl | rfl | rfl | rfl
                          · exact hdig4.2.2.2
                          · exact hdig4.2.2.1
                          · exact hdig4.2.1
                          · exact hdig4.1
                        · intro x hx
                          exact List.mem_takeWhile_imp (List.mem_reverse.1 hx)
                        · intro x hx
                          exact List.mem_takeWhile_imp (List.mem_reverse.1 hx)
                  · rw [if_neg hc2] at h
                    simp at h
              · rw [if_neg hdig] at h
                simp at h
    · rw [if_neg hc] at h
      simp at h

/-- Counterexample to C4 as stated: `"Foo(2009)"` has no whitespace between
the title and the parenthesized year, yet the regex accepts it (title `Foo`,
year 2009) and the movie file loads without error. -/
theorem title_space_optional_counterexample :
    extractTitleYear "Foo(2009)".toList = some ("Foo".toList, 2009) ∧
    (load_movies_file ["Drama|1|Foo(2009)".toList] emptyMovies).2 = none := by
  decide

/-- C4 (amended): `_concept_key` (hence the movie loader) aborts with the
invalid-title error exactly when the movie name fails the shape
`<title><optional whitespace>(<optional whitespace><4 digits><optional
whitespace>)<optional trailing whitespace>` with a non-empty, newline-free
title — whitespace between the title and the parenthesized year is optional,
not required. -/
theorem title_format_abort_iff (s : List Char) (i : Nat) :
    concept_key s i = .error (.moviesBadTitle i) ↔ ¬ amendedTitleShape s := by
  have hnone : concept_key s i = .error (.moviesBadTitle i) ↔ extractTitleYear s = none := by
    unfold concept_key conceptKeyOf
    cases hty : extractTitleYear s with
    | none => simp
    | some ty => simp
  rw [hnone]
  constructor
  · intro h hshape
    have := amendedTitleShape_isSome hshape
    rw [h] at this
    simp at this
  · intro h
    cases hty : extractTitleYear s with
    | none => rfl
    | some ty =>
      exact absurd (isSome_amendedTitleShape (by rw [hty]; rfl)) h

/-!
## C1 (corrected): an id is bound to one concept; same-concept canonical
records may share an id
-/

theorem concept_key_ok_iff {nm : List Char} {i : Nat} {ck : List Char} :
    concept_key nm i = .ok ck ↔ conceptKeyOf nm = some ck := by
  unfold concept_key
  cases h : conceptKeyOf nm with
  | none => simp
  | some ck' => simp

theorem get_canonical_eq_of_none {l : List (List Char × MovieRec)} {nm : List Char}
    (h : alGet (get_canonical_movie_name l nm) l = none) :
    get_canonical_movie_name l nm = nm := by
  unfold get_canonical_movie_name at *
  cases hf : l.find? (fun p => case_insensitive_equal_same_length p.1 nm) with
  | none => rfl
  | some p =>
    rw [hf] at h
    have hpm : p ∈ l := List.mem_of_find?_eq_some hf
    have hsome := alGet_isSome_of_mem (k := p.1) (v := p.2) (by simpa using hpm)
    rw [h] at hsome
    simp at hsome

/-- The invariant tying the local `concept_to_id` map to the catalog maps:
every concept binding points at an id whose current record carries that
concept, every canonical record is keyed by its own name and its concept is
bound to its id, and `MOVIES_BY_ID` keys agree with the records' ids. -/
def CatInv (ctid : List (List Char × Int)) (st : MoviesState) : Prop :=
  (∀ ck id, alGet ck ctid = some id →
    ∃ m, alGet id st.moviesById = some m ∧ conceptKeyOf m.name = some ck) ∧
  (∀ nm m, alGet nm st.moviesByName = some m →
    m.name = nm ∧ ∃ ck, conceptKeyOf nm = some ck ∧ alGet ck ctid = some m.movie_id) ∧
  (∀ id m, alGet id st.moviesById = some m → m.movie_id = id)

theorem movieRowStep_preserves_CatInv {i : Nat} {raw : List Char}
    {ctid ctid' : List (List Char × Int)} {st st' : MoviesState}
    (hinv : CatInv ctid st) (h : movieRowStep i raw ctid st = .ok (ctid', st')) :
    CatInv ctid' st' := by
  obtain ⟨inv1, inv2, inv3⟩ := hinv
  obtain ⟨g, mid, nm, ck, hp, hneg, hck, hprev, hct, hbyid, hrest⟩ := movieRowStep_ok_cases h
  have hckOf : conceptKeyOf nm = some ck := concept_key_ok_iff.1 hck
  subst hct
  rcases hrest with ⟨hnone, hst⟩ | ⟨existing, hex, hid, hst⟩
  · -- fresh canonical record
    have hcan : get_canonical_movie_name st.moviesByName nm = nm :=
      get_canonical_eq_of_none hnone
    rw [hcan] at hnone hst
    subst hst
    refine ⟨?_, ?_, ?_⟩
    · intro ck₀ id₀ hget
      rw [alGet_alSetd] at hget
      simp only [registerGenre]
      cases hold : alGet ck₀ ctid with
      | some idOld =>
        rw [hold] at hget
        injection hget with hq
        subst hq
        obtain ⟨m₀, hm₀, hcm₀⟩ := inv1 ck₀ idOld hold
        rw [alGet_alSet]
        by_cases hidm : idOld = mid
        · subst hidm
          refine ⟨_, if_pos rfl, ?_⟩
          have := hbyid m₀ hm₀
          rw [concept_key_ok_iff] at this
          rw [hcm₀] at this
          injection this with hckeq
          show conceptKeyOf nm = some ck₀
          rw [hckOf, ← hckeq]
        · exact ⟨m₀, by rw [if_neg hidm]; exact hm₀, hcm₀⟩
      | none =>
        rw [hold] at hget
        by_cases hcke : ck₀ = ck
        · rw [if_pos hcke] at hget
          injection hget with hq
          subst hq
          subst hcke
          rw [alGet_alSet]
          exact ⟨_, if_pos rfl, hckOf⟩
        · rw [if_neg hcke] at hget
          exact absurd hget (by simp)
    · intro nm₀ m₀ hget
      simp only [registerGenre] at hget
      rw [alGet_alSet] at hget
      by_cases hnme : nm₀ = nm
      · rw [if_pos hnme] at hget
        injection hget with hq
        subst hq
        subst hnme
        refine ⟨rfl, ck, hckOf, ?_⟩
        rw [alGet_alSetd]
        cases hold : alGet ck ctid with
        | some p =>
          rw [hprev p hold]
        | none =>
          rw [if_pos rfl]
      · rw [if_neg hnme] at hget
        obtain ⟨hname, ck₀, hc₀, hg₀⟩ := inv2 nm₀ m₀ hget
        refine ⟨hname, ck₀, hc₀, ?_⟩
        rw [alGet_alSetd, hg₀]
    · intro id₀ m₀ hget
      simp only [registerGenre] at hget
      rw [alGet_alSet] at hget
      by_cases hidm : id₀ = mid
      · rw [if_pos hidm] at hget
        injection hget with hq
        subst hq
        exact hidm.symm
      · rw [if_neg hidm] at hget
        exact inv3 id₀ m₀ hget
  · -- kept-first duplicate row
    subst hst
    have hexist := inv2 _ existing hex
    obtain ⟨hname, ckE, hcE, hgE⟩ := hexist
    obtain ⟨m₁, hm₁, hcm₁⟩ := inv1 ckE existing.movie_id hgE
    rw [hid] at hm₁
    have hckE : ckE = ck := by
      have := hbyid m₁ hm₁
      rw [concept_key_ok_iff] at this
      rw [hcm₁] at this
      injection this
    refine ⟨?_, ?_, ?_⟩
    · intro ck₀ id₀ hget
      rw [alGet_alSetd] at hget
      simp only [registerGenre]
      cases hold : alGet ck₀ ctid with
      | some idOld =>
        rw [hold] at hget
        injection hget with hq
        subst hq
        exact inv1 ck₀ idOld hold
      | none =>
        rw [hold] at hget
        by_cases hcke : ck₀ = ck
        · rw [if_pos hcke] at hget
          injection hget with hq
          subst hq
          subst hcke
          exact ⟨m₁, hm₁, by rw [hcm₁, hckE]⟩
        · rw [if_neg hcke] at hget
          exact absurd hget (by simp)
    · intro nm₀ m₀ hget
      simp only [registerGenre] at hget
      obtain ⟨hname₀, ck₀, hc₀, hg₀⟩ := inv2 nm₀ m₀ hget
      refine ⟨hname₀, ck₀, hc₀, ?_⟩
      rw [alGet_alSetd, hg₀]
    · intro id₀ m₀ hget
      simp only [registerGenre] at hget
      exact inv3 id₀ m₀ hget

theorem processMoviesLines_preserves_CatInv :
    ∀ (lines : List (List Char)) (i : Nat) (ctid ctid' : List (List Char × Int))
      (st st' : MoviesState),
      CatInv ctid st → processMoviesLines i lines ctid st = (ctid', st', none) →
      CatInv ctid' st'
  | [], i, ctid, ctid', st, st' => by
    intro hinv h
    unfold processMoviesLines at h
    injection h with h1 h2
    injection h2 with h2 h3
    subst h1
    subst h2
    exact hinv
  | raw :: rest, i, ctid, ctid', st, st' => by
    intro hinv h
    unfold processMoviesLines at h
    cases hstep : movieRowStep i raw ctid st with
    | error e =>
      rw [hstep] at h
      injection h with h1 h2
      injection h2 with h2 h3
      exact absurd h3 (by simp)
    | ok t =>
      obtain ⟨ctid₂, st₂⟩ := t
      rw [hstep] at h
      dsimp only at h
      exact processMoviesLines_preserves_CatInv rest (i + 1) ctid₂ ctid' st₂ st'
        (movieRowStep_preserves_CatInv hinv hstep) h

/-- C1 (amended): in every catalog accepted by `load_movies_file` from a
clean state, each movie id is bound to exactly one conceptual
(normalized title, year) pair: any two canonical records sharing a movie id
have the same concept key.  Distinct canonical records (e.g. display names
differing only in internal whitespace) may therefore share an id precisely
when they denote the same concept. -/
theorem catalog_id_binds_one_concept
    (file : List (List Char)) (st : MoviesState)
    (h : load_movies_file file emptyMovies = (st, none)) :
    ∀ n₁ m₁ n₂ m₂, alGet n₁ st.moviesByName = some m₁ →
      alGet n₂ st.moviesByName = some m₂ → m₁.movie_id = m₂.movie_id →
      ∃ ck, conceptKeyOf n₁ = some ck ∧ conceptKeyOf n₂ = some ck := by
  have hinv : CatInv ((processMoviesLines 1 (fileLines file) [] emptyMovies).1) st := by
    unfold load_movies_file at h
    dsimp only at h
    by_cases hemp : (fileLines file).isEmpty
    · rw [if_pos hemp] at h
      injection h with h1 h2
      exact absurd h2 (by simp)
    · rw [if_neg hemp] at h
      obtain ⟨h1, h2⟩ : (processMoviesLines 1 (fileLines file) [] emptyMovies).2.1 = st ∧
          (processMoviesLines 1 (fileLines file) [] emptyMovies).2.2 = none := by
        injection h with a b
        exact ⟨a, b⟩
      have hr : processMoviesLines 1 (fileLines file) [] emptyMovies =
          ((processMoviesLines 1 (fileLines file) [] emptyMovies).1, st, none) := by
        rw [← h1, ← h2]
      exact processMoviesLines_preserves_CatInv _ _ _ _ _ _
        ⟨fun ck id hg => absurd hg (by simp [alGet_nil]),
         fun nm m hg => absurd hg (by simp [alGet_nil, emptyMovies]),
         fun id m hg => absurd hg (by simp [alGet_nil, emptyMovies])⟩ hr
  obtain ⟨inv1, inv2, _⟩ := hinv
  intro n₁ m₁ n₂ m₂ hg₁ hg₂ heq
  obtain ⟨_, ck₁, hc₁, hb₁⟩ := inv2 n₁ m₁ hg₁
  obtain ⟨_, ck₂, hc₂, hb₂⟩ := inv2 n₂ m₂ hg₂
  obtain ⟨ma, hma, hcma⟩ := inv1 ck₁ m₁.movie_id hb₁
  obtain ⟨mb, hmb, hcmb⟩ := inv1 ck₂ m₂.movie_id hb₂
  rw [← heq] at hmb
  rw [hma] at hmb
  injection hmb with hmab
  subst hmab
  rw [hcma] at hcmb
  injection hcmb with hcc
  exact ⟨ck₁, hc₁, by rw [hc₂, hcc]⟩

/-- The two-row file binding the same concept, under display names of
different lengths, to the same id. -/
def c1File : List (List Char) :=
  ["Drama|1|Foo (2009)".toList, "Drama|1|Foo  (2009)".toList]

/-- Counterexample to C1 as stated: `c1File` is accepted, and the catalog
ends with two distinct canonical records (the two display names differ in
length, so they are not display-equivalent) that carry the same movie id. -/
theorem distinct_canonical_same_id_counterexample :
    (load_movies_file c1File emptyMovies).2 = none ∧
    (load_movies_file c1File emptyMovies).1.moviesByName.map
        (fun p => (p.1, p.2.movie_id)) =
      [("Foo (2009)".toList, 1), ("Foo  (2009)".toList, 1)] := by
  decide

theorem catalog_id_binds_one_concept_witness :
    ∃ ck, conceptKeyOf "Foo (2009)".toList = some ck ∧
      conceptKeyOf "Foo  (2009)".toList = some ck :=
  catalog_id_binds_one_concept c1File (load_movies_file c1File emptyMovies).1
    (by decide) "Foo (2009)".toList
    ⟨1, "Foo (2009)".toList, "Drama".toList, "drama".toList⟩
    "Foo  (2009)".toList
    ⟨1, "Foo  (2009)".toList, "Drama".toList, "drama".toList⟩
    (by decide) (by decide) rfl

/-!
## C6: first retained-eligible rating wins per (user, canonical movie) pair
-/

/-- The triple parsed from a ratings row, independent of the line number
used only in error messages. -/
def parsedRow? (raw : List Char) : Option (List Char × ℚ × Int) :=
  match parse_ratings_line raw 0 with
  | .ok t => some t
  | .error _ => none

theorem parse_ratings_line_ok_indep (raw : List Char) (i j : Nat)
    (t : List Char × ℚ × Int) :
    parse_ratings_line raw i = .ok t ↔ parse_ratings_line raw j = .ok t := by
  unfold parse_ratings_line
  split
  next mn rs us heq =>
    by_cases hempty : pyStrip mn = [] ∨ pyStrip rs = [] ∨ pyStrip us = []
    · simp [hempty]
    · rw [if_neg hempty, if_neg hempty]
      cases pyFloat? (pyStrip rs) with
      | none => simp
      | some o =>
        cases o with
        | none => simp
        | some rating =>
          cases pyInt? (pyStrip us) with
          | none => simp
          | some uid => simp
  next _ _ => simp

theorem parse_ratings_line_ok_iff {raw : List Char} {i : Nat}
    {t : List Char × ℚ × Int} :
    parse_ratings_line raw i = .ok t ↔ parsedRow? raw = some t := by
  rw [parse_ratings_line_ok_indep raw i 0 t]
  unfold parsedRow?
  cases h : parse_ratings_line raw 0 with
  | ok u => simp
  | error e => simp

/-- Modelled from the claim's words: the rating a single row contributes to
the pair `(uid, c)` when it is retained-eligible for it — the row parses,
names the user, its value is in range, and its movie name resolves to the
canonical entry `c`. -/
def rowEligibleRating (moviesByName : List (List Char × MovieRec)) (raw : List Char)
    (uid : Int) (c : List Char) : Option ℚ :=
  match parsedRow? raw with
  | some (nm, r, u) =>
    if u = uid ∧ (0 ≤ r ∧ r ≤ 5) ∧ findCanonical moviesByName nm = some c then some r
    else none
  | none => none

/-- Modelled from the claim's words: the value of the first retained-eligible
occurrence for the pair, in file order. -/
def firstEligibleRating (moviesByName : List (List Char × MovieRec)) :
    List (List Char) → Int → List Char → Option ℚ
  | [], _, _ => none
  | raw :: rest, uid, c =>
    match rowEligibleRating moviesByName raw uid c with
    | some r => some r
    | none => firstEligibleRating moviesByName rest uid c

/-- The rating `RATINGS_BY_USER` holds for the pair `(uid, c)`. -/
def postLookup (rst : RatingsState) (uid : Int) (c : List Char) : Option ℚ :=
  alGet c ((alGet uid rst.ratingsByUser).getD [])

/-- The `RATINGS_BY_MOVIE` entries of movie `c` belonging to user `uid`. -/
def pairEntries (rst : RatingsState) (uid : Int) (c : List Char) : List (Int × ℚ) :=
  ((alGet c rst.ratingsByMovie).getD []).filter (fun p => p.1 = uid)

/-- The loop invariant for one pair: the seen-set, the per-user map and the
per-movie list agree on whether (and with which value) the pair is retained. -/
def PairInv (seen : List (Int × List Char)) (rst : RatingsState)
    (uid : Int) (c : List Char) : Prop :=
  match postLookup rst uid c with
  | some v => (uid, c) ∈ seen ∧ pairEntries rst uid c = [(uid, v)]
  | none => (uid, c) ∉ seen ∧ pairEntries rst uid c = []

theorem ratingRowStep_ok_firstWins {i : Nat} {raw : List Char}
    {moviesByName : List (List Char × MovieRec)}
    {seen seen₂ : List (Int × List Char)} {rst rst₂ : RatingsState}
    (h : ratingRowStep i raw moviesByName seen rst = .ok (seen₂, rst₂)) :
    ∀ uid c, PairInv seen rst uid c →
      PairInv seen₂ rst₂ uid c ∧
      postLookup rst₂ uid c = (match postLookup rst uid c with
        | some v => some v
        | none => rowEligibleRating moviesByName raw uid c) := by
  intro uid c hinv
  unfold ratingRowStep at h
  cases hp : parse_ratings_line raw i with
  | error e =>
    rw [hp] at h
    exact absurd h (by simp)
  | ok t =>
    obtain ⟨nm, r, u⟩ := t
    rw [hp] at h
    dsimp only at h
    have hparsed : parsedRow? raw = some (nm, r, u) := parse_ratings_line_ok_iff.1 hp
    have hrow : rowEligibleRating moviesByName raw uid c =
        (if u = uid ∧ (0 ≤ r ∧ r ≤ 5) ∧ findCanonical moviesByName nm = some c
         then some r else none) := by
      unfold rowEligibleRating
      rw [hparsed]
    by_cases hneg : u < 0
    · rw [if_pos hneg] at h
      exact absurd h (by simp)
    rw [if_neg hneg] at h
    by_cases hr2 : 0 ≤ r ∧ r ≤ 5
    case neg =>
      rw [if_pos hr2] at h
      injection h with hpq
      injection hpq with e1 e2
      subst e1
      subst e2
      refine ⟨hinv, ?_⟩
      cases hpl : postLookup rst uid c with
      | some v => rfl
      | none => rw [hrow, if_neg (fun hcond => hr2 hcond.2.1)]
    case pos =>
      rw [if_neg (not_not_intro hr2)] at h
      cases hfc : findCanonical moviesByName nm with
      | none =>
        rw [hfc] at h
        injection h with hpq
        injection hpq with e1 e2
        subst e1
        subst e2
        refine ⟨hinv, ?_⟩
        cases hpl : postLookup rst uid c with
        | some v => rfl
        | none =>
          rw [hrow, if_neg ?_]
          intro hcond
          rw [hfc] at hcond
          exact absurd hcond.2.2 (by simp)
      | some cn =>
        rw [hfc] at h
        dsimp only at h
        by_cases hseen : (u, cn) ∈ seen
        · rw [if_pos hseen] at h
          injection h with hpq
          injection hpq with e1 e2
          subst e1
          subst e2
          refine ⟨hinv, ?_⟩
          cases hpl : postLookup rst uid c with
          | some v => rfl
          | none =>
            rw [hrow, if_neg ?_]
            rintro ⟨rfl, _, hcc⟩
            rw [hfc] at hcc
            injection hcc with hcc
            subst hcc
            unfold PairInv at hinv
            rw [hpl] at hinv
            exact hinv.1 hseen
        · rw [if_neg hseen] at h
          injection h with hpq
          injection hpq with e1 e2
          subst e1
          subst e2
          by_cases hpair : uid = u ∧ c = cn
          · obtain ⟨rfl, rfl⟩ := hpair
            have hpl : postLookup rst uid c = none := by
              cases hq : postLookup rst uid c with
              | none => rfl
              | some v =>
                unfold PairInv at hinv
                rw [hq] at hinv
                exact absurd hinv.1 hseen
            have hpost2 : postLookup (addRating rst uid c r) uid c = some r := by
              unfold postLookup addRating
              dsimp only
              rw [alGet_alSet, if_pos rfl, Option.getD_some, alGet_alSet, if_pos rfl]
            refine ⟨?_, ?_⟩
            · unfold PairInv
              rw [hpost2]
              refine ⟨List.mem_cons_self _ _, ?_⟩
              unfold pairEntries addRating
              dsimp only
              rw [alGet_alSet, if_pos rfl, Option.getD_some, List.filter_append]
              have holde : pairEntries rst uid c = [] := by
                unfold PairInv at hinv
                rw [hpl] at hinv
                exact hinv.2
              unfold pairEntries at holde
              rw [holde]
              simp
            · rw [hpl, hrow, if_pos ⟨rfl, hr2, hfc⟩, hpost2]
          · have hc2 : ¬ ((uid, c) = (u, cn)) := by
              intro hq
              injection hq with q1 q2
              exact hpair ⟨q1, q2⟩
            have hplEq : postLookup (addRating rst u cn r) uid c = postLookup rst uid c := by
              unfold postLookup addRating
              dsimp only
              by_cases hu : uid = u
              · subst hu
                have hcc : ¬ c = cn := fun hx => hpair ⟨rfl, hx⟩
                rw [alGet_alSet, if_pos rfl, Option.getD_some, alGet_alSet, if_neg hcc]
              · rw [alGet_alSet, if_neg hu]
            have hpeEq : pairEntries (addRating rst u cn r) uid c = pairEntries rst uid c := by
              unfold pairEntries addRating
              dsimp only
              by_cases hcc : c = cn
              · subst hcc
                have hu : ¬ uid = u := fun hx => hpair ⟨hx, rfl⟩
                have hu2 : ¬ u = uid := fun hx => hu hx.symm
                rw [alGet_alSet, if_pos rfl, Option.getD_some, List.filter_append]
                simp [hu2]
              · rw [alGet_alSet, if_neg hcc]
            have hmem : ((uid, c) ∈ (u, cn) :: seen) ↔ (uid, c) ∈ seen := by
              rw [List.mem_cons]
              exact ⟨fun hq => hq.resolve_left hc2, Or.inr⟩
            refine ⟨?_, ?_⟩
            · unfold PairInv at hinv ⊢
              rw [hplEq, hpeEq]
              cases hq : postLookup rst uid c with
              | some v =>
                rw [hq] at hinv
                exact ⟨hmem.2 hinv.1, hinv.2⟩
              | none =>
                rw [hq] at hinv
                exact ⟨fun hx => hinv.1 (hmem.1 hx), hinv.2⟩
            · rw [hplEq]
              cases hq : postLookup rst uid c with
              | some v => rfl
              | none =>
                rw [hrow, if_neg ?_]
                rintro ⟨rfl, _, hcc⟩
                rw [hfc] at hcc
                injection hcc with hcc
                exact hpair ⟨rfl, hcc.symm⟩

theorem processRatings_firstWins (moviesByName : List (List Char × MovieRec)) :
    ∀ (lines : List (List Char)) (i : Nat) (seen seen' : List (Int × List Char))
      (rst rst' : RatingsState),
      processRatingsLines moviesByName i lines seen rst = (seen', rst', none) →
      ∀ uid c, PairInv seen rst uid c →
        PairInv seen' rst' uid c ∧
        postLookup rst' uid c = (match postLookup rst uid c with
          | some v => some v
          | none => firstEligibleRating moviesByName lines uid c)
  | [], i, seen, seen', rst, rst' => by
    intro h uid c hinv
    unfold processRatingsLines at h
    injection h with e1 e2
    injection e2 with e2 e3
    subst e1
    subst e2
    refine ⟨hinv, ?_⟩
    cases hpl : postLookup rst uid c with
    | some v => rfl
    | none => rfl
  | raw :: rest, i, seen, seen', rst, rst' => by
    intro h uid c hinv
    unfold processRatingsLines at h
    cases hstep : ratingRowStep i raw moviesByName seen rst with
    | error e =>
      rw [hstep] at h
      injection h with e1 e2
      injection e2 with e2 e3
      exact absurd e3 (by simp)
    | ok t =>
      obtain ⟨seen₂, rst₂⟩ := t
      rw [hstep] at h
      dsimp only at h
      obtain ⟨hinv₂, hpost₂⟩ := ratingRowStep_ok_firstWins hstep uid c hinv
      obtain ⟨hinvF, hpostF⟩ := processRatings_firstWins moviesByName rest (i + 1)
        seen₂ seen' rst₂ rst' h uid c hinv₂
      refine ⟨hinvF, ?_⟩
      rw [hpost₂] at hpostF
      rw [hpostF]
      cases hpl : postLookup rst uid c with
      | some v => rfl
      | none =>
        show (match rowEligibleRating moviesByName raw uid c with
          | some v => some v
          | none => firstEligibleRating moviesByName rest uid c) =
          firstEligibleRating moviesByName (raw :: rest) uid c
        rfl

/-- C6: after a successful `load_ratings_file` from a clean ratings state,
for every (user id, canonical movie) pair the per-user index holds exactly
the value of the first retained-eligible occurrence in file order (none when
there is none), and the per-movie index holds exactly that one entry for the
pair — later occurrences, including ones naming the movie through a
display-equivalent variant, are silently dropped. -/
theorem first_rating_wins
    (moviesByName : List (List Char × MovieRec)) (file : List (List Char))
    (rst : RatingsState)
    (h : load_ratings_file moviesByName file emptyRatings = (rst, none)) :
    ∀ uid c,
      postLookup rst uid c = firstEligibleRating moviesByName (fileLines file) uid c ∧
      ((alGet c rst.ratingsByMovie).getD []).filter (fun p => p.1 = uid) =
        (match firstEligibleRating moviesByName (fileLines file) uid c with
         | some v => [(uid, v)]
         | none => []) := by
  unfold load_ratings_file at h
  dsimp only at h
  by_cases hemp : (fileLines file).isEmpty
  · rw [if_pos hemp] at h
    injection h with h1 h2
    exact absurd h2 (by simp)
  · rw [if_neg hemp] at h
    cases hproc : processRatingsLines moviesByName 1 (fileLines file) [] emptyRatings with
    | mk seenE t =>
      obtain ⟨rstE, eo⟩ := t
      rw [hproc] at h
      cases eo with
      | some e =>
        dsimp only at h
        injection h with h1 h2
        exact absurd h2 (by simp)
      | none =>
        dsimp only at h
        injection h with h1 h2
        intro uid c
        have hinv0 : PairInv [] emptyRatings uid c := by
          unfold PairInv postLookup pairEntries emptyRatings
          simp [alGet_nil]
        obtain ⟨hinvF, hpostF⟩ := processRatings_firstWins moviesByName (fileLines file)
          1 [] seenE emptyRatings rstE hproc uid c hinv0
        have hpl0 : postLookup emptyRatings uid c = none := by
          unfold postLookup emptyRatings
          simp [alGet_nil]
        rw [hpl0] at hpostF
        have hrstU : rst.ratingsByUser = rstE.ratingsByUser := by
          rw [← h1]
        have hrstM : rst.ratingsByMovie = rstE.ratingsByMovie := by
          rw [← h1]
        constructor
        · show alGet c ((alGet uid rst.ratingsByUser).getD []) = _
          rw [hrstU]
          exact hpostF
        · rw [hrstM]
          unfold PairInv at hinvF
          cases hq : postLookup rstE uid c with
          | some v =>
            rw [hq] at hinvF hpostF
            dsimp only at hinvF hpostF
            rw [← hpostF]
            exact hinvF.2
          | none =>
            rw [hq] at hinvF hpostF
            dsimp only at hinvF hpostF
            rw [← hpostF]
            exact hinvF.2

/-- Catalog index for the C6 witness. -/
def c6Movies : List (List Char × MovieRec) :=
  [("Foo (2000)".toList, ⟨1, "Foo (2000)".toList, "Drama".toList, "drama".toList⟩)]

/-- Ratings file with a duplicate (user, movie) pair: rating 4 first, then 1. -/
def c6File : List (List Char) :=
  ["Foo (2000)|4|7".toList, "Foo (2000)|1|7".toList]

theorem first_rating_wins_witness :
    postLookup (load_ratings_file c6Movies c6File emptyRatings).1 7 "Foo (2000)".toList =
      firstEligibleRating c6Movies (fileLines c6File) 7 "Foo (2000)".toList ∧
    firstEligibleRating c6Movies (fileLines c6File) 7 "Foo (2000)".toList = some 4 := by
  constructor
  · exact (first_rating_wins c6Movies c6File (load_ratings_file c6Movies c6File emptyRatings).1
      (by with_unfolding_all decide) 7 "Foo (2000)".toList).1
  · with_unfolding_all decide

/-!
## C10: every loaded user gets a `USER_TOP_GENRE` entry
-/

theorem alSet_ne_nil {κ ν : Type _} [DecidableEq κ] (k : κ) (v : ν)
    (l : List (κ × ν)) : alSet k v l ≠ [] := by
  cases l with
  | nil => simp [alSet]
  | cons p ps =>
    unfold alSet
    by_cases hp : p.1 = k <;> simp [hp]

theorem mem_alSet {κ ν : Type _} [DecidableEq κ] {x : κ × ν} {k : κ} {v : ν}
    {l : List (κ × ν)} (h : x ∈ alSet k v l) : x = (k, v) ∨ x ∈ l := by
  induction l with
  | nil => simpa [alSet] using h
  | cons p ps ih =>
    unfold alSet at h
    by_cases hp : p.1 = k
    · rw [if_pos hp] at h
      rcases List.mem_cons.1 h with h1 | h2
      · exact Or.inl h1
      · exact Or.inr (List.mem_cons_of_mem _ h2)
    · rw [if_neg hp] at h
      rcases List.mem_cons.1 h with h1 | h2
      · exact Or.inr (h1 ▸ List.mem_cons_self _ _)
      · rcases ih h2 with h3 | h4
        · exact Or.inl h3
        · exact Or.inr (List.mem_cons_of_mem _ h4)

theorem findCanonical_isSome {moviesByName : List (List Char × MovieRec)}
    {nm c : List Char} (h : findCanonical moviesByName nm = some c) :
    (alGet c moviesByName).isSome := by
  unfold findCanonical at h
  rcases Option.map_eq_some'.1 h with ⟨p, hp, hpc⟩
  have hpm : p ∈ moviesByName := List.mem_of_find?_eq_some hp
  subst hpc
  exact alGet_isSome_of_mem (k := p.1) (v := p.2) (by simpa using hpm)

/-- Invariant: every per-user map built by the ratings loop is non-empty and
mentions only movies resolvable in `MOVIES_BY_NAME`. -/
def UsersResolveInv (moviesByName : List (List Char × MovieRec))
    (rst : RatingsState) : Prop :=
  ∀ uid mp, alGet uid rst.ratingsByUser = some mp →
    mp ≠ [] ∧ ∀ p ∈ mp, (alGet p.1 moviesByName).isSome

theorem ratingRowStep_preserves_resolve {i : Nat} {raw : List Char}
    {moviesByName : List (List Char × MovieRec)}
    {seen seen₂ : List (Int × List Char)} {rst rst₂ : RatingsState}
    (hinv : UsersResolveInv moviesByName rst)
    (h : ratingRowStep i raw moviesByName seen rst = .ok (seen₂, rst₂)) :
    UsersResolveInv moviesByName rst₂ := by
  unfold ratingRowStep at h
  cases hp : parse_ratings_line raw i with
  | error e =>
    rw [hp] at h
    exact absurd h (by simp)
  | ok t =>
    obtain ⟨nm, r, u⟩ := t
    rw [hp] at h
    dsimp only at h
    by_cases hneg : u < 0
    · rw [if_pos hneg] at h
      exact absurd h (by simp)
    rw [if_neg hneg] at h
    by_cases hr2 : ¬ (0 ≤ r ∧ r ≤ 5)
    · rw [if_pos hr2] at h
      injection h with hpq
      injection hpq with e1 e2
      subst e2
      exact hinv
    rw [if_neg hr2] at h
    cases hfc : findCanonical moviesByName nm with
    | none =>
      rw [hfc] at h
      injection h with hpq
      injection hpq with e1 e2
      subst e2
      exact hinv
    | some cn =>
      rw [hfc] at h
      dsimp only at h
      by_cases hseen : (u, cn) ∈ seen
      · rw [if_pos hseen] at h
        injection h with hpq
        injection hpq with e1 e2
        subst e2
        exact hinv
      · rw [if_neg hseen] at h
        injection h with hpq
        injection hpq with e1 e2
        subst e2
        intro uid mp hget
        unfold addRating at hget
        dsimp only at hget
        rw [alGet_alSet] at hget
        by_cases hu : uid = u
        · rw [if_pos hu] at hget
          injection hget with hmp
          subst hmp
          refine ⟨alSet_ne_nil _ _ _, ?_⟩
          intro p hpmem
          rcases mem_alSet hpmem with h1 | h2
          · rw [h1]
            exact findCanonical_isSome hfc
          · cases hold : alGet u rst.ratingsByUser with
            | some mp₀ =>
              rw [hold, Option.getD_some] at h2
              exact (hinv u mp₀ hold).2 p h2
            | none =>
              rw [hold] at h2
              simp at h2
        · rw [if_neg hu] at hget
          exact hinv uid mp hget

theorem processRatings_preserves_resolve (moviesByName : List (List Char × MovieRec)) :
    ∀ (lines : List (List Char)) (i : Nat) (seen seen' : List (Int × List Char))
      (rst rst' : RatingsState),
      UsersResolveInv moviesByName rst →
      processRatingsLines moviesByName i lines seen rst = (seen', rst', none) →
      UsersResolveInv moviesByName rst'
  | [], i, seen, seen', rst, rst' => by
    intro hinv h
    unfold processRatingsLines at h
    injection h with e1 e2
    injection e2 with e2 e3
    subst e2
    exact hinv
  | raw :: rest, i, seen, seen', rst, rst' => by
    intro hinv h
    unfold processRatingsLines at h
    cases hstep : ratingRowStep i raw moviesByName seen rst with
    | error e =>
      rw [hstep] at h
      injection h with e1 e2
      injection e2 with e2 e3
      exact absurd e3 (by simp)
    | ok t =>
      obtain ⟨seen₂, rst₂⟩ := t
      rw [hstep] at h
      dsimp only at h
      exact processRatings_preserves_resolve moviesByName rest (i + 1) seen₂ seen' rst₂ rst'
        (ratingRowStep_preserves_resolve hinv hstep) h

theorem aggFold_count (moviesByName : List (List Char × MovieRec)) :
    ∀ (mp : List (List Char × ℚ)) (agg : List (List Char × (ℚ × Nat))),
      (∀ e ∈ agg, 1 ≤ e.2.2) →
      ∀ e ∈ mp.foldl (aggStep moviesByName) agg, 1 ≤ e.2.2
  | [], agg => by
    intro hagg e he
    exact hagg e he
  | p :: ps, agg => by
    intro hagg e he
    rw [List.foldl_cons] at he
    refine aggFold_count moviesByName ps (aggStep moviesByName agg p) ?_ e he
    intro e' he'
    unfold aggStep at he'
    cases hg : alGet p.1 moviesByName with
    | none =>
      rw [hg] at he'
      exact hagg e' he'
    | some mv =>
      rw [hg] at he'
      dsimp only at he'
      rcases mem_alSet he' with h1 | h2
      · rw [h1]
        exact Nat.le_add_left 1 _
      · exact hagg e' h2

theorem aggFold_ne_nil (moviesByName : List (List Char × MovieRec)) :
    ∀ (mp : List (List Char × ℚ)) (agg : List (List Char × (ℚ × Nat))),
      (agg ≠ [] ∨ ∃ p ∈ mp, (alGet p.1 moviesByName).isSome) →
      mp.foldl (aggStep moviesByName) agg ≠ []
  | [], agg => by
    intro hcase
    rcases hcase with h | ⟨p, hp, _⟩
    · exact h
    · simp at hp
  | p :: ps, agg => by
    intro hcase
    rw [List.foldl_cons]
    refine aggFold_ne_nil moviesByName ps (aggStep moviesByName agg p) ?_
    unfold aggStep
    cases hg : alGet p.1 moviesByName with
    | none =>
      rcases hcase with h | ⟨q, hq, hqs⟩
      · exact Or.inl h
      · rcases List.mem_cons.1 hq with rfl | hq2
        · rw [hg] at hqs
          simp at hqs
        · exact Or.inr ⟨q, hq2, hqs⟩
    | some mv =>
      exact Or.inl (alSet_ne_nil _ _ _)

/-- C10: after a successful `load_ratings_file` from a clean ratings state,
`compute_user_top_genre_cache` produces an entry for every user id in
`USER_IDS` — every retained rating's movie key resolves in
`MOVIES_BY_NAME`, so each loaded user's genre aggregation is non-empty and
the top-genre selection always yields a winner. -/
theorem every_user_gets_top_genre
    (moviesByName : List (List Char × MovieRec))
    (genreOriginalCase : List (List Char × List Char))
    (file : List (List Char)) (rst : RatingsState)
    (h : load_ratings_file moviesByName file emptyRatings = (rst, none)) :
    ∀ uid ∈ rst.userIds,
      (alGet uid (compute_user_top_genre_cache moviesByName genreOriginalCase
        rst.ratingsByUser)).isSome := by
  unfold load_ratings_file at h
  dsimp only at h
  by_cases hemp : (fileLines file).isEmpty
  · rw [if_pos hemp] at h
    injection h with h1 h2
    exact absurd h2 (by simp)
  rw [if_neg hemp] at h
  cases hproc : processRatingsLines moviesByName 1 (fileLines file) [] emptyRatings with
  | mk seenE t =>
    obtain ⟨rstE, eo⟩ := t
    rw [hproc] at h
    cases eo with
    | some e =>
      dsimp only at h
      injection h with h1 h2
      exact absurd h2 (by simp)
    | none =>
      dsimp only at h
      injection h with h1 h2
      have hinv : UsersResolveInv moviesByName rstE :=
        processRatings_preserves_resolve moviesByName (fileLines file) 1 [] seenE
          emptyRatings rstE
          (fun uid mp hg => absurd hg (by simp [emptyRatings, alGet_nil])) hproc
      have hU : rst.ratingsByUser = rstE.ratingsByUser := by
        rw [← h1]
      have hIds : rst.userIds =
          sortBy (fun a b => a ≤ b) (rstE.ratingsByUser.map (·.1)) := by
        rw [← h1]
      intro uid hmem
      rw [hIds, mem_sortBy] at hmem
      have hget : (alGet uid rstE.ratingsByUser).isSome := by
        rcases List.mem_map.1 hmem with ⟨q, hq, hquid⟩
        obtain ⟨a, b⟩ := q
        dsimp only at hquid
        subst hquid
        exact alGet_isSome_of_mem hq
      obtain ⟨mp, hmp⟩ := Option.isSome_iff_exists.1 hget
      obtain ⟨hne, hres⟩ := hinv uid mp hmp
      have hmem2 : (uid, mp) ∈ rstE.ratingsByUser := alGet_mem hmp
      have hagg : aggGenres moviesByName mp ≠ [] := by
        unfold aggGenres
        refine aggFold_ne_nil moviesByName mp [] (Or.inr ?_)
        cases mp with
        | nil => exact absurd rfl hne
        | cons p ps => exact ⟨p, List.mem_cons_self _ _, hres p (List.mem_cons_self _ _)⟩
      have hcount : ∀ e ∈ aggGenres moviesByName mp, 1 ≤ e.2.2 :=
        fun e he => aggFold_count moviesByName mp [] (by simp) e he
      have hcands : (aggGenres moviesByName mp).filterMap
          (fun g => if g.2.2 ≥ 1 then some (g.1, g.2.1 / (g.2.2 : ℚ), g.2.2) else none) ≠ [] := by
        cases hagg2 : aggGenres moviesByName mp with
        | nil => exact absurd hagg2 hagg
        | cons e rest =>
          rw [List.filterMap_cons, if_pos (hcount e (hagg2 ▸ List.mem_cons_self _ _))]
          simp
      rw [hU]
      cases hsort : sortBy (userGenreLE genreOriginalCase)
          ((aggGenres moviesByName mp).filterMap
            (fun g => if g.2.2 ≥ 1 then some (g.1, g.2.1 / (g.2.2 : ℚ), g.2.2) else none)) with
      | nil =>
        exfalso
        apply hcands
        have := length_sortBy (userGenreLE genreOriginalCase)
          ((aggGenres moviesByName mp).filterMap
            (fun g => if g.2.2 ≥ 1 then some (g.1, g.2.1 / (g.2.2 : ℚ), g.2.2) else none))
        rw [hsort] at this
        exact List.length_eq_zero.1 this.symm
      | cons top rest =>
        have hGmem : (uid, top) ∈ compute_user_top_genre_cache moviesByName
            genreOriginalCase rstE.ratingsByUser := by
          unfold compute_user_top_genre_cache
          refine List.mem_filterMap.2 ⟨(uid, mp), hmem2, ?_⟩
          dsimp only
          rw [if_neg hagg, hsort]
        exact alGet_isSome_of_mem hGmem

theorem every_user_gets_top_genre_witness :
    ((7 : Int) ∈ (load_ratings_file c6Movies c6File emptyRatings).1.userIds) ∧
    (alGet (7 : Int) (compute_user_top_genre_cache c6Movies []
      (load_ratings_file c6Movies c6File emptyRatings).1.ratingsByUser)).isSome := by
  refine ⟨by with_unfolding_all decide, ?_⟩
  exact every_user_gets_top_genre c6Movies [] c6File
    (load_ratings_file c6Movies c6File emptyRatings).1
    (by with_unfolding_all decide) 7 (by with_unfolding_all decide)
